import Mathlib

/-!
Verification of the tracking-by-detection core of `scripts/pyannote-face.py`:
the two timed-record synchronizers (`getShotGenerator`, `getFaceGenerator`)
and the per-frame body of `track` (shot-cut clear, tracker updates, overlap
matrix, assignment acceptance, spawning and coasting).

Modelling conventions.  Python floats (timestamps, box coordinates, areas,
confidences) are modelled as rationals; the script only compares, subtracts
and multiplies them, so the embedding is exact on the values involved.
Python dicts (`trackers`, `confidences`) are modelled as insertion-ordered
association lists; the external correlation tracker (`dlib`) is modelled by
the position it would report, with `tracker.update` supplied as a per-frame
oracle; `hungarian.compute` (the `munkres` package) is an external solver
supplied as a function from the cost matrix to a list of index pairs.
-/

/-- A dlib (d)rectangle `(left, top, right, bottom)`. -/
structure Box where
  left : ℚ
  top : ℚ
  right : ℚ
  bottom : ℚ
deriving DecidableEq, Repr

/-- dlib `drectangle.area()`: zero when the rectangle is empty
(`right < left` or `bottom < top`), otherwise `width * height` with dlib's
`+1` convention (`width = right - left + 1`). -/
def Box.area (b : Box) : ℚ :=
  if b.right < b.left ∨ b.bottom < b.top then 0
  else (b.right - b.left + 1) * (b.bottom - b.top + 1)

/-- dlib `drectangle.intersect`: componentwise max/min of the corners. -/
def Box.intersect (a b : Box) : Box :=
  ⟨max a.left b.left, max a.top b.top, min a.right b.right, min a.bottom b.bottom⟩

/-- Suspension states of `getShotGenerator` after priming (`send(None)`):
`primed lines` is the generator suspended at its first `t = yield` with the
shot file (the list of boundary timestamps) not yet read; `waiting T rest`
is the inner `t = yield` reached because `T > t` (line 77); `delivered rest`
is `t = yield T` (line 81); `done` means the generator body has returned. -/
inductive ShotGen where
  | primed (lines : List ℚ)
  | waiting (T : ℚ) (rest : List ℚ)
  | delivered (rest : List ℚ)
  | done
deriving DecidableEq, Repr

/-- Resuming the `for line in f` loop of `getShotGenerator` on the remaining
lines with driving time `t`: with no line left the body returns — the next
`send` raises `StopIteration`, modelled as first component `none`; otherwise
the inner `while` either yields no value (`T > t`, "no cut yet") or yields
the boundary timestamp `T`. -/
def shotAdvance : List ℚ → ℚ → Option (Option ℚ) × ShotGen
  | [], _ => (none, ShotGen.done)
  | T :: rest, t =>
      if T > t then (some none, ShotGen.waiting T rest)
      else (some (some T), ShotGen.delivered rest)

/-- `shotGenerator.send(t)`.  The first component is `none` when the call
raises `StopIteration`, `some none` when the generator yields without a
value (no cut) and `some (some T)` when it yields the boundary `T`. -/
def shotSend : ShotGen → ℚ → Option (Option ℚ) × ShotGen
  | ShotGen.primed lines, t => shotAdvance lines t
  | ShotGen.waiting T rest, t =>
      if T > t then (some none, ShotGen.waiting T rest)
      else (some (some T), ShotGen.delivered rest)
  | ShotGen.delivered rest, t => shotAdvance rest t
  | ShotGen.done, _ => (none, ShotGen.done)

/-- The `for line in f` read loop of `getFaceGenerator` (lines 96-129):
starting from the buffer `faces` holding the records of the group at time
`currentT` (`none` before any record was read), it consumes lines while
their timestamp equals `currentT` (`if T == currentT or currentT is None`,
line 107), until a record with a different timestamp is found — returning
the completed group, that lookahead record, and the unread rest — or the
file ends, returning `none`: the buffered final group is dropped and the
generator falls into its trailing `while True: t = yield t, []` loop. -/
def readGroup {α : Type} : Option ℚ → List α → List (ℚ × α) →
    Option (ℚ × List α × (ℚ × α) × List (ℚ × α))
  | _, _, [] => none
  | none, faces, (T, a) :: rest => readGroup (some T) (faces ++ [a]) rest
  | some c, faces, (T, a) :: rest =>
      if T = c then readGroup (some c) (faces ++ [a]) rest
      else some (c, faces, (T, a), rest)

/-- Suspension states of `getFaceGenerator` after priming.  `primed lines`:
suspended at the initial `t = yield`, file unread.  `waiting c g look rest`:
suspended at the inner `t = yield t, []` (line 120) with completed group `g`
at time `c`, lookahead record `look` and unread `rest`.
`delivered look rest`: suspended at `t = yield currentT, faces` (line 124)
just after a group was delivered.  `exhausted`: suspended in the trailing
`while True: t = yield t, []` (lines 131-132). -/
inductive FaceGenState (α : Type) where
  | primed (lines : List (ℚ × α))
  | waiting (c : ℚ) (g : List α) (look : ℚ × α) (rest : List (ℚ × α))
  | delivered (look : ℚ × α) (rest : List (ℚ × α))
  | exhausted
deriving DecidableEq, Repr

/-- What happens when the read loop's outcome meets the driving time `t`:
`none` (file ended) falls into the trailing loop, which yields `(t, [])`;
a completed group at time `c` waits (yielding `(t, [])`) while `c > t`, and
is delivered as `(c, g)` once `c ≤ t`. -/
def faceResume {α : Type} (res : Option (ℚ × List α × (ℚ × α) × List (ℚ × α)))
    (t : ℚ) : (ℚ × List α) × FaceGenState α :=
  match res with
  | none => ((t, []), FaceGenState.exhausted)
  | some (c, g, look, rest) =>
      if c > t then ((t, []), FaceGenState.waiting c g look rest)
      else ((c, g), FaceGenState.delivered look rest)

/-- `faceGenerator.send(t)`: yields `(t, [])` while the pending group's
timestamp exceeds `t` and forever after exhaustion, and `(c, g)` when the
pending group `g` at time `c ≤ t` is delivered. -/
def faceSend {α : Type} : FaceGenState α → ℚ → (ℚ × List α) × FaceGenState α
  | FaceGenState.primed lines, t => faceResume (readGroup none [] lines) t
  | FaceGenState.waiting c g look rest, t =>
      if c > t then ((t, []), FaceGenState.waiting c g look rest)
      else ((c, g), FaceGenState.delivered look rest)
  | FaceGenState.delivered look rest, t =>
      faceResume (readGroup (some look.1) [look.2] rest) t
  | FaceGenState.exhausted, t => ((t, []), FaceGenState.exhausted)

/-- Driving the face generator with successive frame timestamps, collecting
the yielded `(time, group)` pairs and the final generator state. -/
def faceRun {α : Type} : FaceGenState α → List ℚ → List (ℚ × List α) × FaceGenState α
  | σ, [] => ([], σ)
  | σ, t :: ts =>
      let r := faceSend σ t
      let rest := faceRun r.2 ts
      (r.1 :: rest.1, rest.2)

/-- Partition of a record stream into maximal runs of equal timestamp
(the grouping rule of `getFaceGenerator`): `groupAux c buf` extends the run
at time `c` while the next record's time equals `c`. -/
def groupAux {α : Type} (c : ℚ) (buf : List α) : List (ℚ × α) → List (ℚ × List α)
  | [] => [(c, buf)]
  | (T, a) :: rest =>
      if T = c then groupAux c (buf ++ [a]) rest
      else (c, buf) :: groupAux T [a] rest

/-- The groups of a record stream, in stream order. -/
def groupByT {α : Type} : List (ℚ × α) → List (ℚ × List α)
  | [] => []
  | (T, a) :: rest => groupAux T [a] rest

/-- Python truthiness of the value returned by the shot generator, as used
by `if shot:` (line 208): `None` and the float `0.0` are both falsy. -/
def shotTruthy : Option ℚ → Bool
  | none => false
  | some T => T != 0

/-- One output line of the `track` command (the fields of `FACE_TEMPLATE`;
the `%.3f` / `int()` text formatting belongs to the excluded I/O layer). -/
structure OutRec where
  T : ℚ
  identifier : ℕ
  box : Box
  confidence : ℚ
deriving DecidableEq, Repr

/-- Mutable state of `track` carried across frames: the `trackers` dict
(association list from identifier to the tracker's current position — the
tracker's hidden correlation state is represented by the position it
reports), the `confidences` dict, and the `identifier` counter. -/
structure TrackState where
  trackers : List (ℕ × Box)
  confidences : List (ℕ × ℚ)
  identifier : ℕ
deriving DecidableEq, Repr

/-- External inputs consumed by `track` on one frame: the value returned by
`shotGenerator.send(timestamp)`, the pair `T, faces` returned by
`faceGenerator.send(timestamp)`, and the behaviour of the black-box
correlation tracker on this frame's image: `upd i pos` is the position and
confidence that `tracker.update(gray)` produces for the tracker of
identifier `i` currently at position `pos`. -/
structure FrameData where
  shot : Option ℚ
  T : ℚ
  faces : List Box
  upd : ℕ → Box → Box × ℚ

/-- Python dict lookup `d[i]` (the script only reads keys it has written;
the `0` default is never observed under that discipline). -/
def lookupC (l : List (ℕ × ℚ)) (i : ℕ) : ℚ :=
  match l.find? (fun p => p.1 == i) with
  | some p => p.2
  | none => 0

/-- Python dict assignment `d[i] = v`: overwrite in place, or append. -/
def updateC (l : List (ℕ × ℚ)) (i : ℕ) (v : ℚ) : List (ℕ × ℚ) :=
  if l.any (fun p => p.1 == i) then
    l.map (fun p => if p.1 == i then (i, v) else p)
  else l ++ [(i, v)]

/-- Lines 218-219: update every live tracker against the current frame; the
tracker of identifier `i` at position `pos` moves to `(upd i pos).1`. -/
def updateTrackers (upd : ℕ → Box → Box × ℚ) (trackers : List (ℕ × Box)) :
    List (ℕ × Box) :=
  trackers.map (fun p => (p.1, (upd p.1 p.2).1))

/-- Lines 218-219: `confidences[i] = tracker.update(gray)` for every live
tracker, in dict order. -/
def updateConfs (upd : ℕ → Box → Box × ℚ) (trackers : List (ℕ × Box))
    (confs : List (ℕ × ℚ)) : List (ℕ × ℚ) :=
  trackers.foldl (fun cs p => updateC cs p.1 (upd p.1 p.2).2) confs

/-- Lines 227-233: the `N × N` intersection-area matrix with
`N = max(Nt, Nf)`; the `np.zeros` padding stays `0` outside the
`Nt × Nf` block of real track/face pairs. -/
def mkAreas (positions faceBoxes : List Box) : List (List ℚ) :=
  let N := max positions.length faceBoxes.length
  (List.range N).map (fun i =>
    (List.range N).map (fun j =>
      match positions.get? i, faceBoxes.get? j with
      | some p, some b => (Box.intersect p b).area
      | _, _ => 0))

/-- Matrix entry `m[i, j]` (defaulting to `0` outside the matrix; the
script never reads outside). -/
def entryAt (m : List (List ℚ)) (i j : ℕ) : ℚ := (m.getD i []).getD j 0

/-- `np.max(areas)`: the matrix is nonempty with nonnegative entries
whenever it is built (line 224 guarantees `Nt ≥ 1` and `Nf ≥ 1`), so
folding `max` from `0` agrees with numpy's maximum. -/
def matrixMax (m : List (List ℚ)) : ℚ :=
  m.foldl (fun acc row => row.foldl max acc) 0

/-- Line 236: the cost matrix `np.max(areas) - areas` fed to
`hungarian.compute`. -/
def mkCost (m : List (List ℚ)) : List (List ℚ) :=
  m.map (fun row => row.map (fun a => matrixMax m - a))

/-- State mutated by the matching loop of lines 238-262: the snapshot list
`trackers_` (its trackers alias the dict's, so re-seeding shows up in both),
the `unmatched` set, the `faces` list with consumed slots nulled (line 262),
and the records written so far. -/
structure MatchSt where
  trackers : List (ℕ × Box)
  unmatched : List ℕ
  faces : List (Option Box)
  out : List OutRec
deriving Repr

/-- Body of `for t, f in mapping:` (lines 238-262).  Pairs with a phantom
row or column are skipped (lines 240-241); otherwise the half-overlap test
of line 253 decides acceptance: re-seed the tracker on the face box, remove
the identifier from `unmatched`, write the matched record and null the face
slot.  (A consumed face slot would make Python fail at `face.area()`, and a
repeated row would make `unmatched.remove` fail; both are impossible for
the one-to-one mappings `hungarian.compute` returns, and are modelled as
leaving the state unchanged.) -/
def applyPair (T : ℚ) (confs : List (ℕ × ℚ)) (Nt Nf : ℕ) (areas : List (List ℚ))
    (s : MatchSt) (p : ℕ × ℕ) : MatchSt :=
  if Nt ≤ p.1 ∨ Nf ≤ p.2 then s
  else
    match s.faces.get? p.2, s.trackers.get? p.1 with
    | some (some face), some ip =>
        if 2 * entryAt areas p.1 p.2 > face.area ∨
            2 * entryAt areas p.1 p.2 > ip.2.area then
          { trackers := s.trackers.set p.1 (ip.1, face)
            unmatched := s.unmatched.erase ip.1
            faces := s.faces.set p.2 none
            out := s.out ++ [⟨T, ip.1, face, lookupC confs ip.1⟩] }
        else s
    | _, _ => s

/-- The whole matching loop over the solver's proposed pairs. -/
def matchStage (T : ℚ) (confs : List (ℕ × ℚ)) (areas : List (List ℚ))
    (mapping : List (ℕ × ℕ)) (Nt Nf : ℕ) (s : MatchSt) : MatchSt :=
  mapping.foldl (applyPair T confs Nt Nf areas) s

/-- State threaded through the spawning loop of lines 264-280. -/
structure SpawnSt where
  identifier : ℕ
  trackers : List (ℕ × Box)
  confs : List (ℕ × ℚ)
  out : List OutRec
deriving Repr

/-- Body of the spawning loop (lines 264-280): every unconsumed face gets
the next identifier, a fresh tracker seeded on the face box and updated
once, and an output record with the sentinel confidence `0.000`. -/
def spawnOne (T : ℚ) (upd : ℕ → Box → Box × ℚ) (s : SpawnSt)
    (slot : Option Box) : SpawnSt :=
  match slot with
  | none => s
  | some face =>
      let i := s.identifier + 1
      let u := upd i face
      { identifier := i
        trackers := s.trackers ++ [(i, u.1)]
        confs := updateC s.confs i u.2
        out := s.out ++ [⟨T, i, face, 0⟩] }

/-- The whole spawning loop. -/
def spawnStage (T : ℚ) (upd : ℕ → Box → Box × ℚ) (slots : List (Option Box))
    (s : SpawnSt) : SpawnSt :=
  slots.foldl (spawnOne T upd) s

/-- Coasting loop (lines 282-292): every tracker still in `unmatched` is
reported at its own predicted position with its stored confidence. -/
def coastRecs (T : ℚ) (confs : List (ℕ × ℚ)) (unmatched : List ℕ)
    (trackers : List (ℕ × Box)) : List OutRec :=
  trackers.filterMap (fun p =>
    if p.1 ∈ unmatched then some ⟨T, p.1, p.2, lookupC confs p.1⟩ else none)

/-- Lines 207-210: the trackers dict after the shot-boundary clear. -/
def clearedTrackers (fd : FrameData) (st : TrackState) : List (ℕ × Box) :=
  if shotTruthy fd.shot then [] else st.trackers

/-- Lines 207-210: the confidences dict after the shot-boundary clear. -/
def clearedConfs (fd : FrameData) (st : TrackState) : List (ℕ × ℚ) :=
  if shotTruthy fd.shot then [] else st.confidences

/-- The confidences dict after the per-frame tracker updates. -/
def frameConfs (fd : FrameData) (st : TrackState) : List (ℕ × ℚ) :=
  updateConfs fd.upd (clearedTrackers fd st) (clearedConfs fd st)

/-- Lines 221-262: the state after the matching stage.  The overlap matrix,
the cost matrix and the assignment solver run only under `if Nt and Nf:`
(line 224); otherwise the stage is the identity on its inputs. -/
def frameMatch (solver : List (List ℚ) → List (ℕ × ℕ)) (fd : FrameData)
    (st : TrackState) : MatchSt :=
  let trackers1 := updateTrackers fd.upd (clearedTrackers fd st)
  let Nt := trackers1.length
  let Nf := fd.faces.length
  let s0 : MatchSt := ⟨trackers1, trackers1.map Prod.fst, fd.faces.map some, []⟩
  if Nt ≠ 0 ∧ Nf ≠ 0 then
    let areas := mkAreas (trackers1.map Prod.snd) fd.faces
    matchStage fd.T (frameConfs fd st) areas (solver (mkCost areas)) Nt Nf s0
  else s0

/-- One iteration of `for timestamp, frame in frames:` (lines 201-292),
returning the new state and the three record segments written this frame:
matched (lines 257-260), spawned (lines 277-280), coasting (lines 289-292). -/
def processFrameParts (solver : List (List ℚ) → List (ℕ × ℕ)) (fd : FrameData)
    (st : TrackState) : TrackState × (List OutRec × List OutRec × List OutRec) :=
  let s1 := frameMatch solver fd st
  let s2 := spawnStage fd.T fd.upd s1.faces
    ⟨st.identifier, s1.trackers, frameConfs fd st, []⟩
  let coast := coastRecs fd.T s2.confs s1.unmatched s2.trackers
  (⟨s2.trackers, s2.confs, s2.identifier⟩, (s1.out, s2.out, coast))

/-- One frame of `track`: the new state and the records written this frame,
in file order. -/
def processFrame (solver : List (List ℚ) → List (ℕ × ℕ)) (fd : FrameData)
    (st : TrackState) : TrackState × List OutRec :=
  let r := processFrameParts solver fd st
  (r.1, r.2.1 ++ r.2.2.1 ++ r.2.2.2)

/-- A whole tracking run: fold `processFrame` over the frame inputs. -/
def runTrack (solver : List (List ℚ) → List (ℕ × ℕ)) :
    TrackState → List FrameData → TrackState × List OutRec
  | st, [] => (st, [])
  | st, fd :: rest =>
      let r := processFrame solver fd st
      let r2 := runTrack solver r.1 rest
      (r2.1, r.2 ++ r2.2)

/-- The identifiers assigned to tracks created in each frame of a run, in
creation order (the spawning loop is the only place `identifier` changes,
and the only place tracks are created). -/
def runSpawnIds (solver : List (List ℚ) → List (ℕ × ℕ)) :
    TrackState → List FrameData → List ℕ
  | _, [] => []
  | st, fd :: rest =>
      let r := processFrameParts solver fd st
      r.2.2.1.map OutRec.identifier ++ runSpawnIds solver r.1 rest

/-- The value of the `identifier` counter before each frame and after the
last one. -/
def runCounters (solver : List (List ℚ) → List (ℕ × ℕ)) :
    TrackState → List FrameData → List ℕ
  | st, [] => [st.identifier]
  | st, fd :: rest =>
      st.identifier :: runCounters solver (processFrame solver fd st).1 rest

/-- `[a+1, a+2, ..., a+n]`: the identifiers assigned when `n` tracks are
spawned while the counter stands at `a`. -/
def freshIds (a : ℕ) : ℕ → List ℕ
  | 0 => []
  | n + 1 => (a + 1) :: freshIds (a + 1) n

/-- The records the spawning loop writes for the unconsumed faces `bs` when
the counter stands at `a`. -/
def spawnRecsOf (T : ℚ) : ℕ → List Box → List OutRec
  | _, [] => []
  | a, b :: bs => ⟨T, a + 1, b, 0⟩ :: spawnRecsOf T (a + 1) bs

/-- The tracker entries the spawning loop appends for the unconsumed faces
`bs` when the counter stands at `a`. -/
def spawnTrkOf (upd : ℕ → Box → Box × ℚ) : ℕ → List Box → List (ℕ × Box)
  | _, [] => []
  | a, b :: bs => (a + 1, (upd (a + 1) b).1) :: spawnTrkOf upd (a + 1) bs

/-- Number of unconsumed face slots. -/
def countSome (l : List (Option Box)) : ℕ := (l.filterMap id).length

/-- The groups the generator can still deliver from state `σ`: the groups of
the remaining stream except the stream's final group (which the read loop
never flushes — at end of file the buffered group is discarded). -/
def stateGroups {α : Type} : FaceGenState α → List (ℚ × List α)
  | FaceGenState.primed lines => (groupByT lines).dropLast
  | FaceGenState.waiting c g look rest => ((c, g) :: groupByT (look :: rest)).dropLast
  | FaceGenState.delivered look rest => (groupByT (look :: rest)).dropLast
  | FaceGenState.exhausted => []

/-- Reachable generator states only hold nonempty groups. -/
def WFface {α : Type} (σ : FaceGenState α) : Prop :=
  ∀ p ∈ stateGroups σ, p.2 ≠ []


/-- The spawning-stage state of one frame (lines 264-280 applied to the
faces left unconsumed by the matching stage). -/
def frameSpawn (solver : List (List ℚ) → List (ℕ × ℕ)) (fd : FrameData)
    (st : TrackState) : SpawnSt :=
  spawnStage fd.T fd.upd (frameMatch solver fd st).faces
    ⟨st.identifier, (frameMatch solver fd st).trackers, frameConfs fd st, []⟩


theorem entryAt_mkAreas (positions faceBoxes : List Box) (i j : ℕ)
    (hi : i < max positions.length faceBoxes.length)
    (hj : j < max positions.length faceBoxes.length) :
    entryAt (mkAreas positions faceBoxes) i j =
      match positions.get? i, faceBoxes.get? j with
      | some p, some b => (Box.intersect p b).area
      | _, _ => 0 := by
  simp only [entryAt, mkAreas]
  rw [List.getD_eq_getElem?_getD, List.getD_eq_getElem?_getD, List.getElem?_map,
    List.getElem?_range hi]
  simp only [Option.map_some', Option.getD_some]
  rw [List.getElem?_map, List.getElem?_range hj]
  simp only [Option.map_some', Option.getD_some]

theorem mkAreas_length (positions faceBoxes : List Box) :
    (mkAreas positions faceBoxes).length = max positions.length faceBoxes.length := by
  simp [mkAreas]

theorem mkAreas_row_length (positions faceBoxes : List Box) (row : List ℚ)
    (h : row ∈ mkAreas positions faceBoxes) :
    row.length = max positions.length faceBoxes.length := by
  simp only [mkAreas, List.mem_map] at h
  obtain ⟨i, -, rfl⟩ := h
  simp

theorem entryAt_mkCost (m : List (List ℚ)) (i j : ℕ)
    (hi : i < m.length) (hj : j < (m.getD i []).length) :
    entryAt (mkCost m) i j = matrixMax m - entryAt m i j := by
  have hrow : m.getD i [] = m[i] := by
    simp [List.getD_eq_getElem?_getD, List.getElem?_eq_getElem hi]
  rw [hrow] at hj
  simp [entryAt, mkCost, hrow, List.getD_eq_getElem?_getD, List.getElem?_map,
    List.getElem?_eq_getElem hi, List.getElem?_eq_getElem hj]

/-- Claim C4: with `Nt > 0` live tracks and `Nf > 0` detections, the matrix
handed to the assignment solver is `N × N` with `N = max(Nt, Nf)`; the entry
at real indices `i < Nt`, `j < Nf` is the intersection area of the current
position of track `i` with the box of detection `j`, padding is `0`, and each
cost entry is `np.max(areas)` minus the corresponding areas entry. -/
theorem costMatrixConstruction (positions faceBoxes : List Box)
    (hNt : positions ≠ []) (hNf : faceBoxes ≠ []) :
    (mkAreas positions faceBoxes).length = max positions.length faceBoxes.length ∧
    (∀ row ∈ mkAreas positions faceBoxes,
      row.length = max positions.length faceBoxes.length) ∧
    (∀ i j, (hi : i < positions.length) → (hj : j < faceBoxes.length) →
      entryAt (mkAreas positions faceBoxes) i j =
        (Box.intersect (positions.get ⟨i, hi⟩) (faceBoxes.get ⟨j, hj⟩)).area) ∧
    (∀ i j, positions.length ≤ i ∨ faceBoxes.length ≤ j →
      entryAt (mkAreas positions faceBoxes) i j = 0) ∧
    (∀ i j, i < max positions.length faceBoxes.length →
        j < max positions.length faceBoxes.length →
      entryAt (mkCost (mkAreas positions faceBoxes)) i j =
        matrixMax (mkAreas positions faceBoxes) -
          entryAt (mkAreas positions faceBoxes) i j) := by
  refine ⟨mkAreas_length _ _, mkAreas_row_length _ _, ?_, ?_, ?_⟩
  · intro i j hi hj
    have hi' : i < max positions.length faceBoxes.length := lt_of_lt_of_le hi (le_max_left _ _)
    have hj' : j < max positions.length faceBoxes.length := lt_of_lt_of_le hj (le_max_right _ _)
    rw [entryAt_mkAreas positions faceBoxes i j hi' hj']
    rw [List.get?_eq_get hi, List.get?_eq_get hj]
  · intro i j hpad
    by_cases hi' : i < max positions.length faceBoxes.length
    · by_cases hj' : j < max positions.length faceBoxes.length
      · rw [entryAt_mkAreas positions faceBoxes i j hi' hj']
        rcases hpad with h | h
        · rw [List.get?_eq_none.2 h]
        · rw [List.get?_eq_none.2 h]
          cases positions.get? i <;> rfl
      · have hjlen : ((mkAreas positions faceBoxes).getD i []).length ≤ j := by
          by_cases him : i < (mkAreas positions faceBoxes).length
          · have hrow : (mkAreas positions faceBoxes).getD i [] = (mkAreas positions faceBoxes)[i] := by
              simp [List.getD_eq_getElem?_getD, List.getElem?_eq_getElem him]
            rw [hrow, mkAreas_row_length positions faceBoxes _ (List.getElem_mem him)]
            omega
          · have hnil : (mkAreas positions faceBoxes).getD i [] = [] := by
              simp [List.getD_eq_getElem?_getD, List.getElem?_eq_none (le_of_not_lt him)]
            rw [hnil]
            simp
        simp only [entryAt]
        rw [List.getD_eq_getElem?_getD, List.getElem?_eq_none hjlen]
        rfl
    · have hilen : (mkAreas positions faceBoxes).length ≤ i := by
        rw [mkAreas_length]; omega
      have hnil : (mkAreas positions faceBoxes)[i]? = none := List.getElem?_eq_none hilen
      simp [entryAt, hnil]
  · intro i j hi hj
    have hlen : i < (mkAreas positions faceBoxes).length := by rw [mkAreas_length]; exact hi
    refine entryAt_mkCost _ i j hlen ?_
    have hrow : (mkAreas positions faceBoxes).getD i [] = (mkAreas positions faceBoxes)[i] := by
      simp [List.getD_eq_getElem?_getD, List.getElem?_eq_getElem hlen]
    rw [hrow, mkAreas_row_length positions faceBoxes _ (List.getElem_mem hlen)]
    exact hj

/-- Claim C3: a pair `(t, f)` proposed by the assignment solver is accepted
if and only if both indices are real (`t < Nt`, `f < Nf`) and, with `A` the
intersection area, `Fa` the detection box area and `Ta` the track box area,
`2A > Fa` or `2A > Ta` holds strictly; in particular the boundary case
`2A = Fa` with `2A ≤ Ta` is rejected, and every pair with a phantom row or
column is rejected.  "Accepted" is observable as the loop body changing the
state (it always appends a matched record). -/
theorem matchAcceptance (T : ℚ) (confs : List (ℕ × ℚ)) (Nt Nf : ℕ)
    (areas : List (List ℚ)) (s : MatchSt) (t f i : ℕ) (pos face : Box)
    (ht : t < Nt) (hf : f < Nf)
    (htrk : s.trackers.get? t = some (i, pos))
    (hface : s.faces.get? f = some (some face))
    (harea : entryAt areas t f = (Box.intersect pos face).area) :
    (∀ t' f', Nt ≤ t' ∨ Nf ≤ f' →
      applyPair T confs Nt Nf areas s (t', f') = s) ∧
    (applyPair T confs Nt Nf areas s (t, f) ≠ s ↔
      2 * (Box.intersect pos face).area > face.area ∨
      2 * (Box.intersect pos face).area > pos.area) ∧
    ((2 * (Box.intersect pos face).area = face.area ∧
      2 * (Box.intersect pos face).area ≤ pos.area) →
      applyPair T confs Nt Nf areas s (t, f) = s) := by
  have hguard : ¬ (Nt ≤ t ∨ Nf ≤ f) := by omega
  have hpair : applyPair T confs Nt Nf areas s (t, f) =
      if 2 * (Box.intersect pos face).area > face.area ∨
          2 * (Box.intersect pos face).area > pos.area then
        { trackers := s.trackers.set t (i, face)
          unmatched := s.unmatched.erase i
          faces := s.faces.set f none
          out := s.out ++ [⟨T, i, face, lookupC confs i⟩] } else s := by
    rw [applyPair]
    rw [if_neg hguard]
    rw [show (t, f).2 = f from rfl, show (t, f).1 = t from rfl, hface, htrk, harea]
  refine ⟨?_, ?_, ?_⟩
  · intro t' f' h
    rw [applyPair, if_pos h]
  · rw [hpair]
    constructor
    · intro hne
      by_contra hcond
      rw [if_neg hcond] at hne
      exact hne rfl
    · intro hcond
      rw [if_pos hcond]
      intro heq
      have := congrArg (fun x => x.out.length) heq
      simp at this
  · intro hb
    rw [hpair, if_neg]
    push_neg
    exact ⟨le_of_eq hb.1, hb.2⟩

/-- Claim C1 (amended): once its record stream is fully consumed, every
subsequent pull of the detection synchronizer returns normally, yielding the
driving timestamp itself (not the last recorded timestamp) paired with an
empty detection list; the shot synchronizer instead fails: the first send
after its last boundary was delivered — and every send after that, and the
first send on an empty shot file — raises `StopIteration` (modelled as
result `none`). -/
theorem synchronizerExhaustion (α : Type) (t : ℚ) :
    (shotSend (ShotGen.delivered []) t).1 = none ∧
    (shotSend ShotGen.done t).1 = none ∧
    (shotSend (ShotGen.primed []) t).1 = none ∧
    faceSend (FaceGenState.exhausted : FaceGenState α) t =
      ((t, []), FaceGenState.exhausted) :=
  ⟨rfl, rfl, rfl, rfl⟩

/-- Claim C1 counterexample: with the one-line shot stream `[1.0]`, the send
at driving time `1.0` delivers the boundary (the stream is then fully
consumed) and the next send, at driving time `2.0`, raises `StopIteration`
(`none`) instead of returning the prior "no cut" state — so the shot
synchronizer does not "return normally and never fail" after exhaustion. -/
theorem shotExhaustionFailure :
    (shotSend (ShotGen.primed [1]) 1).1 = some (some 1) ∧
    (shotSend (shotSend (ShotGen.primed [1]) 1).2 2).1 = none := by
  constructor <;> decide

theorem processFrame_shot_congr (solver : List (List ℚ) → List (ℕ × ℕ))
    (sh sh' : Option ℚ) (T : ℚ) (faces : List Box) (upd : ℕ → Box → Box × ℚ)
    (st : TrackState) (h : shotTruthy sh = shotTruthy sh') :
    processFrame solver ⟨sh, T, faces, upd⟩ st =
      processFrame solver ⟨sh', T, faces, upd⟩ st := by
  simp only [processFrame, processFrameParts, frameMatch, frameConfs,
    clearedTrackers, clearedConfs, h]

/-- Claim C9: the shot-cut signal is the yielded timestamp tested for Python
truthiness, so a boundary at exactly `0.0` never triggers a reset: the send
that reaches time `0.0` consumes the record and yields `0.0`, but
`shotTruthy` is false on it, and a frame whose shot value is `some 0`
is processed exactly as a frame with no shot cut at all. -/
theorem zeroTimestampShotCut :
    (∀ (rest : List ℚ) (t : ℚ), 0 ≤ t →
      shotSend (ShotGen.primed ((0 : ℚ) :: rest)) t =
        (some (some 0), ShotGen.delivered rest)) ∧
    shotTruthy (some 0) = false ∧
    (∀ (solver : List (List ℚ) → List (ℕ × ℕ)) (fd : FrameData) (st : TrackState),
      fd.shot = some 0 →
      processFrame solver fd st = processFrame solver ⟨none, fd.T, fd.faces, fd.upd⟩ st) := by
  refine ⟨?_, by decide, ?_⟩
  · intro rest t h
    simp only [shotSend, shotAdvance]
    rw [if_neg (by exact not_lt.2 h)]
  · rintro solver ⟨sh, T, faces, upd⟩ st h
    simp only at h
    subst h
    exact processFrame_shot_congr solver (some 0) none T faces upd st (by decide)

/-- Witness for C9 at the concrete shot stream `[0.0]` and driving time `0`. -/
theorem zeroTimestampShotCut_witness :
    shotSend (ShotGen.primed [(0 : ℚ)]) 0 = (some (some 0), ShotGen.delivered []) ∧
    shotTruthy (some 0) = false :=
  ⟨zeroTimestampShotCut.1 [] 0 le_rfl, zeroTimestampShotCut.2.1⟩

/-- Witness for C3: a track and a detection on the same `10 × 10` box are accepted. -/
theorem matchAcceptance_witness :
    applyPair 5 [] 1 1 (mkAreas [⟨0, 0, 9, 9⟩] [⟨0, 0, 9, 9⟩])
        ⟨[(7, ⟨0, 0, 9, 9⟩)], [7], [some ⟨0, 0, 9, 9⟩], []⟩ (0, 0) ≠
      ⟨[(7, ⟨0, 0, 9, 9⟩)], [7], [some ⟨0, 0, 9, 9⟩], []⟩ :=
  ((matchAcceptance 5 [] 1 1 (mkAreas [⟨0, 0, 9, 9⟩] [⟨0, 0, 9, 9⟩])
      ⟨[(7, ⟨0, 0, 9, 9⟩)], [7], [some ⟨0, 0, 9, 9⟩], []⟩ 0 0 7
      ⟨0, 0, 9, 9⟩ ⟨0, 0, 9, 9⟩ (by decide) (by decide) (by decide) (by decide)
      rfl).2.1).2 (by norm_num [Box.intersect, Box.area])

/-- Witness for C4: the `1 × 1` overlap matrix of one track and one detection. -/
theorem costMatrixConstruction_witness :
    entryAt (mkAreas [⟨0, 0, 9, 9⟩] [⟨0, 0, 4, 4⟩]) 0 0 =
      (Box.intersect ⟨0, 0, 9, 9⟩ ⟨0, 0, 4, 4⟩).area :=
  (costMatrixConstruction [⟨0, 0, 9, 9⟩] [⟨0, 0, 4, 4⟩] (by decide)
    (by decide)).2.2.1 0 0 (by decide) (by decide)

theorem groupAux_ne_nil {α : Type} (l : List (ℚ × α)) :
    ∀ (c : ℚ) (buf : List α), groupAux c buf l ≠ [] := by
  induction l with
  | nil => intro c buf; simp [groupAux]
  | cons hd tl ih =>
      obtain ⟨T, a⟩ := hd
      intro c buf
      simp only [groupAux]
      by_cases h : T = c
      · rw [if_pos h]; exact ih c (buf ++ [a])
      · rw [if_neg h]; simp

theorem groupAux_mem_ne_nil {α : Type} (l : List (ℚ × α)) :
    ∀ (c : ℚ) (buf : List α), buf ≠ [] → ∀ p ∈ groupAux c buf l, p.2 ≠ [] := by
  induction l with
  | nil =>
      intro c buf hbuf p hp
      simp only [groupAux, List.mem_singleton] at hp
      subst hp
      exact hbuf
  | cons hd tl ih =>
      obtain ⟨T, a⟩ := hd
      intro c buf hbuf p hp
      simp only [groupAux] at hp
      by_cases h : T = c
      · rw [if_pos h] at hp
        exact ih c (buf ++ [a]) (by simp) p hp
      · rw [if_neg h] at hp
        rcases List.mem_cons.1 hp with h1 | h1
        · subst h1; exact hbuf
        · exact ih T [a] (by simp) p h1

theorem groupByT_mem_ne_nil {α : Type} (l : List (ℚ × α)) :
    ∀ p ∈ groupByT l, p.2 ≠ [] := by
  cases l with
  | nil => intro p hp; simp [groupByT] at hp
  | cons hd tl =>
      obtain ⟨T, a⟩ := hd
      exact groupAux_mem_ne_nil tl T [a] (by simp)

theorem readGroup_eq_none {α : Type} (l : List (ℚ × α)) :
    ∀ (c : ℚ) (buf : List α), readGroup (some c) buf l = none →
      ∃ buf', groupAux c buf l = [(c, buf')] := by
  induction l with
  | nil => intro c buf _; exact ⟨buf, rfl⟩
  | cons hd tl ih =>
      obtain ⟨T, a⟩ := hd
      intro c buf h
      simp only [readGroup] at h
      by_cases hT : T = c
      · rw [if_pos hT] at h
        obtain ⟨buf', hb⟩ := ih c (buf ++ [a]) h
        refine ⟨buf', ?_⟩
        simp only [groupAux]
        rw [if_pos hT]
        exact hb
      · rw [if_neg hT] at h
        cases h

theorem readGroup_eq_some {α : Type} (l : List (ℚ × α)) :
    ∀ (c : ℚ) (buf : List α) (c' : ℚ) (g : List α) (look : ℚ × α)
      (rest : List (ℚ × α)),
      readGroup (some c) buf l = some (c', g, look, rest) →
      c' = c ∧ groupAux c buf l = (c, g) :: groupByT (look :: rest) ∧
        (buf ≠ [] → g ≠ []) := by
  induction l with
  | nil => intro c buf c' g look rest h; cases h
  | cons hd tl ih =>
      obtain ⟨T, a⟩ := hd
      intro c buf c' g look rest h
      simp only [readGroup] at h
      by_cases hT : T = c
      · rw [if_pos hT] at h
        obtain ⟨h1, h2, h3⟩ := ih c (buf ++ [a]) c' g look rest h
        refine ⟨h1, ?_, fun _ => h3 (by simp)⟩
        simp only [groupAux]
        rw [if_pos hT]
        exact h2
      · rw [if_neg hT] at h
        simp only [Option.some.injEq, Prod.mk.injEq] at h
        obtain ⟨h1, h2, h3, h4⟩ := h
        subst h1 h2 h3 h4
        refine ⟨rfl, ?_, fun hb => hb⟩
        simp only [groupAux]
        rw [if_neg hT]
        rfl

theorem faceResume_spec {α : Type} (c : ℚ) (a : α) (l : List (ℚ × α)) (t : ℚ) :
    WFface (faceResume (readGroup (some c) [a] l) t).2 ∧
    (((groupAux c [a] l).dropLast = [] ∧
        (faceResume (readGroup (some c) [a] l) t).1 = (t, []) ∧
        stateGroups (faceResume (readGroup (some c) [a] l) t).2 = []) ∨
      (∃ g R, (groupAux c [a] l).dropLast = (c, g) :: R ∧ c > t ∧
        (faceResume (readGroup (some c) [a] l) t).1 = (t, []) ∧
        stateGroups (faceResume (readGroup (some c) [a] l) t).2 = (c, g) :: R) ∨
      (∃ g R, (groupAux c [a] l).dropLast = (c, g) :: R ∧ c ≤ t ∧
        (faceResume (readGroup (some c) [a] l) t).1 = (c, g) ∧
        stateGroups (faceResume (readGroup (some c) [a] l) t).2 = R)) := by
  rcases hread : readGroup (some c) [a] l with - | ⟨c', g, look, rest⟩
  · obtain ⟨buf', hb⟩ := readGroup_eq_none l c [a] hread
    refine ⟨?_, Or.inl ⟨?_, rfl, rfl⟩⟩
    · intro p hp; simp [faceResume, stateGroups] at hp
    · rw [hb]; rfl
  · obtain ⟨hc, hgrp, hg⟩ := readGroup_eq_some l c [a] c' g look rest hread
    rw [hc]
    have hGBne : groupByT (look :: rest) ≠ [] := by
      obtain ⟨lT, la⟩ := look
      simp only [groupByT]
      exact groupAux_ne_nil rest lT [la]
    have hdrop : (groupAux c [a] l).dropLast =
        (c, g) :: (groupByT (look :: rest)).dropLast := by
      rw [hgrp, List.dropLast_cons_of_ne_nil hGBne]
    have hmem : ∀ p ∈ (groupByT (look :: rest)).dropLast, p.2 ≠ [] :=
      fun p hp => groupByT_mem_ne_nil (look :: rest) p
        ((List.dropLast_sublist _).mem hp)
    simp only [faceResume]
    by_cases hct : c > t
    · rw [if_pos hct]
      refine ⟨?_, Or.inr (Or.inl ⟨g, (groupByT (look :: rest)).dropLast, hdrop, hct, rfl, ?_⟩)⟩
      · intro p hp
        simp only [stateGroups] at hp
        rw [List.dropLast_cons_of_ne_nil hGBne] at hp
        rcases List.mem_cons.1 hp with h1 | h1
        · subst h1; exact hg (by simp)
        · exact hmem p h1
      · simp only [stateGroups]
        rw [List.dropLast_cons_of_ne_nil hGBne]
    · rw [if_neg hct]
      push_neg at hct
      refine ⟨?_, Or.inr (Or.inr ⟨g, (groupByT (look :: rest)).dropLast, hdrop, hct, rfl, rfl⟩)⟩
      intro p hp
      simp only [stateGroups] at hp
      exact hmem p hp

theorem faceSend_spec {α : Type} (σ : FaceGenState α) (t : ℚ) (hwf : WFface σ) :
    WFface (faceSend σ t).2 ∧
    ((stateGroups σ = [] ∧ (faceSend σ t).1 = (t, []) ∧
        stateGroups (faceSend σ t).2 = []) ∨
      (∃ c g R, stateGroups σ = (c, g) :: R ∧ c > t ∧ (faceSend σ t).1 = (t, []) ∧
        stateGroups (faceSend σ t).2 = (c, g) :: R) ∨
      (∃ c g R, stateGroups σ = (c, g) :: R ∧ c ≤ t ∧ (faceSend σ t).1 = (c, g) ∧
        stateGroups (faceSend σ t).2 = R)) := by
  cases σ with
  | exhausted => exact ⟨hwf, Or.inl ⟨rfl, rfl, rfl⟩⟩
  | primed lines =>
      cases lines with
      | nil => exact ⟨fun p hp => by simp [faceSend, faceResume, stateGroups, readGroup] at hp,
          Or.inl ⟨rfl, rfl, rfl⟩⟩
      | cons hd tl =>
          obtain ⟨T, a⟩ := hd
          have hsend : faceSend (FaceGenState.primed ((T, a) :: tl)) t =
              faceResume (readGroup (some T) [a] tl) t := by
            simp [faceSend, readGroup]
          have hsg : stateGroups (FaceGenState.primed ((T, a) :: tl)) =
              (groupAux T [a] tl).dropLast := by
            simp [stateGroups, groupByT]
          obtain ⟨h1, h2⟩ := faceResume_spec T a tl t
          rw [hsend, hsg]
          refine ⟨h1, ?_⟩
          rcases h2 with ⟨ha, hb, hc⟩ | ⟨g, R, ha, hb, hc, hd'⟩ | ⟨g, R, ha, hb, hc, hd'⟩
          · exact Or.inl ⟨ha, hb, hc⟩
          · exact Or.inr (Or.inl ⟨T, g, R, ha, hb, hc, hd'⟩)
          · exact Or.inr (Or.inr ⟨T, g, R, ha, hb, hc, hd'⟩)
  | waiting c g look rest =>
      have hGBne : groupByT (look :: rest) ≠ [] := by
        obtain ⟨lT, la⟩ := look
        simp only [groupByT]
        exact groupAux_ne_nil rest lT [la]
      have hsg : stateGroups (FaceGenState.waiting c g look rest) =
          (c, g) :: (groupByT (look :: rest)).dropLast := by
        simp only [stateGroups]
        rw [List.dropLast_cons_of_ne_nil hGBne]
      by_cases hct : c > t
      · have hsend : faceSend (FaceGenState.waiting c g look rest) t =
            ((t, []), FaceGenState.waiting c g look rest) := by
          simp [faceSend, hct]
        rw [hsend]
        exact ⟨hwf, Or.inr (Or.inl ⟨c, g, (groupByT (look :: rest)).dropLast,
          hsg, hct, rfl, hsg⟩)⟩
      · have hsend : faceSend (FaceGenState.waiting c g look rest) t =
            ((c, g), FaceGenState.delivered look rest) := by
          simp [faceSend, hct]
        rw [hsend]
        push_neg at hct
        refine ⟨?_, Or.inr (Or.inr ⟨c, g, (groupByT (look :: rest)).dropLast,
          hsg, hct, rfl, rfl⟩)⟩
        intro p hp
        refine hwf p ?_
        rw [hsg]
        exact List.mem_cons_of_mem _ hp
  | delivered look rest =>
      obtain ⟨lT, la⟩ := look
      have hsend : faceSend (FaceGenState.delivered (lT, la) rest) t =
          faceResume (readGroup (some lT) [la] rest) t := by
        simp [faceSend]
      have hsg : stateGroups (FaceGenState.delivered (lT, la) rest) =
          (groupAux lT [la] rest).dropLast := by
        simp [stateGroups, groupByT]
      obtain ⟨h1, h2⟩ := faceResume_spec lT la rest t
      rw [hsend, hsg]
      refine ⟨h1, ?_⟩
      rcases h2 with ⟨ha, hb, hc⟩ | ⟨g, R, ha, hb, hc, hd'⟩ | ⟨g, R, ha, hb, hc, hd'⟩
      · exact Or.inl ⟨ha, hb, hc⟩
      · exact Or.inr (Or.inl ⟨lT, g, R, ha, hb, hc, hd'⟩)
      · exact Or.inr (Or.inr ⟨lT, g, R, ha, hb, hc, hd'⟩)

theorem faceRun_cons {α : Type} (σ : FaceGenState α) (t : ℚ) (ts : List ℚ) :
    faceRun σ (t :: ts) =
      ((faceSend σ t).1 :: (faceRun (faceSend σ t).2 ts).1,
        (faceRun (faceSend σ t).2 ts).2) := rfl

theorem faceRun_filter_take {α : Type} (ts : List ℚ) :
    ∀ (σ : FaceGenState α), WFface σ →
      ∃ m, ((faceRun σ ts).1.filter (fun p => !p.2.isEmpty)) = (stateGroups σ).take m ∧
        stateGroups (faceRun σ ts).2 = (stateGroups σ).drop m ∧
        WFface (faceRun σ ts).2 := by
  induction ts with
  | nil => intro σ h; exact ⟨0, by simp [faceRun], by simp [faceRun], h⟩
  | cons t ts ih =>
      intro σ hwf
      obtain ⟨hwf', hcase⟩ := faceSend_spec σ t hwf
      obtain ⟨m, hm1, hm2, hm3⟩ := ih (faceSend σ t).2 hwf'
      rcases hcase with ⟨ha, hb, hc⟩ | ⟨c, g, R, ha, -, hb, hc⟩ | ⟨c, g, R, ha, -, hb, hc⟩
      · refine ⟨0, ?_, ?_, hm3⟩
        · rw [faceRun_cons]
          simp only [List.filter_cons, hb]
          simp only [List.isEmpty_nil, Bool.not_true, Bool.false_eq_true, if_false]
          rw [hm1, hc, ha]
          simp
        · rw [faceRun_cons, hm2, hc, ha]
          simp
      · refine ⟨m, ?_, ?_, hm3⟩
        · rw [faceRun_cons]
          simp only [List.filter_cons, hb]
          simp only [List.isEmpty_nil, Bool.not_true, Bool.false_eq_true, if_false]
          rw [hm1, hc, ha]
        · rw [faceRun_cons, hm2, hc, ha]
      · have hgne : g ≠ [] := hwf (c, g) (by rw [ha]; exact List.mem_cons_self _ _)
        refine ⟨m + 1, ?_, ?_, hm3⟩
        · rw [faceRun_cons]
          simp only [List.filter_cons, hb]
          rw [if_pos (by simpa using hgne)]
          rw [hm1, hc, ha]
          simp
        · rw [faceRun_cons, hm2, hc, ha]
          simp

theorem faceRun_not_early {α : Type} (ts : List ℚ) :
    ∀ (σ : FaceGenState α), WFface σ →
      ∀ pr ∈ ts.zip (faceRun σ ts).1, pr.2.2 ≠ [] → pr.2.1 ≤ pr.1 := by
  induction ts with
  | nil => intro σ _ pr hpr; simp [faceRun] at hpr
  | cons t ts ih =>
      intro σ hwf pr hpr hne
      obtain ⟨hwf', hcase⟩ := faceSend_spec σ t hwf
      rw [faceRun_cons, List.zip_cons_cons] at hpr
      rcases List.mem_cons.1 hpr with h | h
      · subst h
        rcases hcase with ⟨-, hb, -⟩ | ⟨c, g, R, -, -, hb, -⟩ | ⟨c, g, R, -, hble, hb, -⟩
        · rw [hb] at hne; simp at hne
        · rw [hb] at hne; simp at hne
        · rw [hb]
          exact hble
      · exact ih (faceSend σ t).2 hwf' pr h hne

theorem faceRun_complete {α : Type} (ts : List ℚ) :
    ∀ (σ : FaceGenState α), WFface σ →
      (stateGroups σ).length ≤ ts.length →
      (∀ t ∈ ts, ∀ p ∈ stateGroups σ, p.1 ≤ t) →
      ((faceRun σ ts).1.filter (fun p => !p.2.isEmpty)) = stateGroups σ ∧
        stateGroups (faceRun σ ts).2 = [] := by
  induction ts with
  | nil =>
      intro σ _ hlen _
      have h0 : stateGroups σ = [] := List.length_eq_zero.1 (Nat.le_zero.1 hlen)
      simp [faceRun, h0]
  | cons t ts ih =>
      intro σ hwf hlen hreach
      obtain ⟨hwf', hcase⟩ := faceSend_spec σ t hwf
      rcases hG : stateGroups σ with - | ⟨⟨c, g⟩, R⟩
      · rcases hcase with ⟨-, hb, hc⟩ | ⟨c, g, R, ha, -⟩ | ⟨c, g, R, ha, -⟩
        · obtain ⟨ih1, ih2⟩ := ih (faceSend σ t).2 hwf'
            (by rw [hc]; simp) (by intro t' _ p hp; rw [hc] at hp; simp at hp)
          refine ⟨?_, ?_⟩
          · rw [faceRun_cons]
            simp only [List.filter_cons, hb]
            simp only [List.isEmpty_nil, Bool.not_true, Bool.false_eq_true, if_false]
            rw [ih1, hc]
          · rw [faceRun_cons, ih2]
        · rw [hG] at ha; cases ha
        · rw [hG] at ha; cases ha
      · have hct : c ≤ t := hreach t (List.mem_cons_self _ _) (c, g)
          (by rw [hG]; exact List.mem_cons_self _ _)
        rcases hcase with ⟨ha, -, -⟩ | ⟨c', g', R', ha, hgt, -, -⟩ | ⟨c', g', R', ha, -, hb, hc⟩
        · rw [hG] at ha; cases ha
        · rw [hG] at ha
          injection ha with ha1 ha2
          injection ha1 with ha3 ha4
          subst ha3
          exact absurd hct (not_le.2 hgt)
        · rw [hG] at ha
          injection ha with ha1 ha2
          injection ha1 with ha3 ha4
          subst ha3; subst ha4; subst ha2
          have hgne : g ≠ [] := hwf (c, g) (by rw [hG]; exact List.mem_cons_self _ _)
          obtain ⟨ih1, ih2⟩ := ih (faceSend σ t).2 hwf'
            (by rw [hc]; simpa [hG] using hlen)
            (by intro t' ht' p hp
                rw [hc] at hp
                exact hreach t' (List.mem_cons_of_mem _ ht') p
                  (by rw [hG]; exact List.mem_cons_of_mem _ hp))
          refine ⟨?_, ?_⟩
          · rw [faceRun_cons]
            simp only [List.filter_cons, hb]
            rw [if_pos (by simpa using hgne)]
            rw [ih1, hc]
          · rw [faceRun_cons, ih2]

theorem faceRun_append {α : Type} (ts1 : List ℚ) :
    ∀ (ts2 : List ℚ) (σ : FaceGenState α),
      faceRun σ (ts1 ++ ts2) =
        ((faceRun σ ts1).1 ++ (faceRun (faceRun σ ts1).2 ts2).1,
          (faceRun (faceRun σ ts1).2 ts2).2) := by
  induction ts1 with
  | nil => intro ts2 σ; simp [faceRun]
  | cons t ts ih =>
      intro ts2 σ
      rw [List.cons_append, faceRun_cons, faceRun_cons, ih]
      simp [faceRun]

/-- Claim C2 (amended): for a non-decreasing record stream and non-decreasing
driving timestamps whose tail `ts2` has enough entries, all at or past every
group's timestamp, the non-empty groups yielded by the detection synchronizer
are exactly the partition of the stream into maximal runs of equal timestamp
*minus its final group* (which the generator never flushes), in stream
order, each exactly once; and a group is never yielded at a driving time
below its own timestamp. -/
theorem detectionSynchronizerMonotonicity {α : Type} (lines : List (ℚ × α))
    (ts1 ts2 : List ℚ)
    (hrecMono : List.Chain' (· ≤ ·) (lines.map Prod.fst))
    (hdriveMono : List.Chain' (· ≤ ·) (ts1 ++ ts2))
    (hlen : ((groupByT lines).dropLast).length ≤ ts2.length)
    (hreach : ∀ t ∈ ts2, ∀ p ∈ (groupByT lines).dropLast, p.1 ≤ t) :
    ((faceRun (FaceGenState.primed lines) (ts1 ++ ts2)).1.filter
        (fun p => !p.2.isEmpty)) = (groupByT lines).dropLast ∧
    (∀ pr ∈ (ts1 ++ ts2).zip
        (faceRun (FaceGenState.primed lines) (ts1 ++ ts2)).1,
      pr.2.2 ≠ [] → pr.2.1 ≤ pr.1) := by
  have hwf : WFface (FaceGenState.primed lines) := by
    intro p hp
    exact groupByT_mem_ne_nil lines p ((List.dropLast_sublist _).mem hp)
  constructor
  · rw [faceRun_append]
    rw [List.filter_append]
    obtain ⟨m, h1, h2, hwf1⟩ := faceRun_filter_take ts1 (FaceGenState.primed lines) hwf
    have hsg : stateGroups (FaceGenState.primed lines) = (groupByT lines).dropLast := rfl
    rw [hsg] at h1 h2
    obtain ⟨h3, -⟩ := faceRun_complete ts2 (faceRun (FaceGenState.primed lines) ts1).2 hwf1
      (by rw [h2, List.length_drop]; omega)
      (by intro t ht p hp
          rw [h2] at hp
          exact hreach t ht p (List.drop_subset _ _ hp))
    rw [h1, h3, h2]
    exact List.take_append_drop m _
  · exact faceRun_not_early (ts1 ++ ts2) (FaceGenState.primed lines) hwf

/-- Claim C2 counterexample: the single-group stream `[(1.0, face 0)]` has
partition `[(1.0, [0])]`, yet driving the synchronizer with `0, 1, 2, 3`
(reaching well past `1.0`) yields no non-empty group at all: the final group
of the stream is never returned, refuting "each group exactly once,
including the final group". -/
theorem detectionFinalGroupDropped :
    ((faceRun (FaceGenState.primed [((1 : ℚ), (0 : ℕ))]) [0, 1, 2, 3]).1.filter
        (fun p => !p.2.isEmpty)) = [] ∧
    groupByT [((1 : ℚ), (0 : ℕ))] = [(1, [0])] := by
  constructor <;> decide

/-- Witness for C2 on a two-group stream driven past both groups: exactly the non-final group is delivered. -/
theorem detectionSynchronizerMonotonicity_witness :
    (((groupByT [((1 : ℚ), (0 : ℕ)), (2, 1)]).dropLast).length ≤ 2 ∧
      ∀ t ∈ [(2 : ℚ), 3], ∀ p ∈ (groupByT [((1 : ℚ), (0 : ℕ)), (2, 1)]).dropLast,
        p.1 ≤ t) ∧
    ((faceRun (FaceGenState.primed [((1 : ℚ), (0 : ℕ)), (2, 1)])
        ([] ++ [2, 3])).1.filter (fun p => !p.2.isEmpty)) =
      (groupByT [((1 : ℚ), (0 : ℕ)), (2, 1)]).dropLast :=
  ⟨⟨by decide, by decide⟩,
    (detectionSynchronizerMonotonicity [((1 : ℚ), (0 : ℕ)), (2, 1)] [] [2, 3]
      (by norm_num [List.chain'_cons]) (by norm_num [List.chain'_cons])
      (by decide) (by decide)).1⟩

theorem set_getElem?_self {β : Type} (l : List β) (n : ℕ) (x : β)
    (h : l[n]? = some x) : l.set n x = l := by
  apply List.ext_getElem?
  intro i
  by_cases hi : n = i
  · subst hi
    rw [List.getElem?_set_self', h]
    rfl
  · exact List.getElem?_set_ne hi

theorem updateTrackers_fst (upd : ℕ → Box → Box × ℚ) (trackers : List (ℕ × Box)) :
    (updateTrackers upd trackers).map Prod.fst = trackers.map Prod.fst := by
  simp [updateTrackers, List.map_map]

theorem updateTrackers_length (upd : ℕ → Box → Box × ℚ) (trackers : List (ℕ × Box)) :
    (updateTrackers upd trackers).length = trackers.length := by
  simp [updateTrackers]

theorem find?_map_update (l : List (ℕ × ℚ)) (i : ℕ) (v : ℚ) :
    l.any (fun p => p.1 == i) = true →
    (l.map (fun p => if p.1 == i then (i, v) else p)).find? (fun p => p.1 == i) =
      some (i, v) := by
  induction l with
  | nil => simp
  | cons hd tl ih =>
      intro hany
      by_cases h : hd.1 = i
      · have h' : (hd.1 == i) = true := by simp [h]
        simp only [List.map_cons, if_pos h']
        rw [List.find?_cons_of_pos _ (by simp)]
      · have h' : (hd.1 == i) = false := by simp [h]
        simp only [List.any_cons, h', Bool.false_or] at hany
        simp only [List.map_cons, h', Bool.false_eq_true, if_false]
        rw [List.find?_cons_of_neg _ (by simp [h']), ih hany]

theorem find?_map_update_ne (l : List (ℕ × ℚ)) (i j : ℕ) (v : ℚ) (hij : j ≠ i) :
    (l.map (fun p => if p.1 == i then (i, v) else p)).find? (fun p => p.1 == j) =
      l.find? (fun p => p.1 == j) := by
  induction l with
  | nil => simp
  | cons hd tl ih =>
      by_cases h : hd.1 = i
      · have h1 : (hd.1 == i) = true := by simp [h]
        have h2 : (hd.1 == j) = false := by
          simp only [beq_eq_false_iff_ne, ne_eq, h]
          exact fun he => hij he.symm
        have h3 : ((i, v).1 == j) = false := by
          simp only [beq_eq_false_iff_ne, ne_eq]
          exact fun he => hij he.symm
        simp only [List.map_cons, if_pos h1]
        rw [List.find?_cons_of_neg _ (by simp [h3]),
          List.find?_cons_of_neg _ (by simp [h2]), ih]
      · have h1 : (hd.1 == i) = false := by simp [h]
        simp only [List.map_cons, h1, Bool.false_eq_true, if_false]
        by_cases hj : hd.1 = j
        · rw [List.find?_cons_of_pos _ (by simp [hj]),
            List.find?_cons_of_pos _ (by simp [hj])]
        · rw [List.find?_cons_of_neg _ (by simp [hj]),
            List.find?_cons_of_neg _ (by simp [hj]), ih]

theorem lookupC_updateC_self (l : List (ℕ × ℚ)) (i : ℕ) (v : ℚ) :
    lookupC (updateC l i v) i = v := by
  by_cases hany : l.any (fun p => p.1 == i) = true
  · rw [lookupC, updateC, if_pos hany, find?_map_update l i v hany]
  · rw [lookupC, updateC, if_neg hany, List.find?_append]
    have hnone : l.find? (fun p => p.1 == i) = none := by
      rw [List.find?_eq_none]
      intro p hp
      by_contra hc
      exact hany (List.any_eq_true.2 ⟨p, hp, by simpa using hc⟩)
    rw [hnone]
    simp

theorem lookupC_updateC_ne (l : List (ℕ × ℚ)) (i j : ℕ) (v : ℚ) (hij : j ≠ i) :
    lookupC (updateC l i v) j = lookupC l j := by
  by_cases hany : l.any (fun p => p.1 == i) = true
  · rw [lookupC, updateC, if_pos hany, find?_map_update_ne l i j v hij, lookupC]
  · rw [lookupC, updateC, if_neg hany, List.find?_append]
    have h3 : ([(i, v)].find? (fun p => p.1 == j)) = none := by
      have hne : ((i, v).1 == j) = false := by
        simp only [beq_eq_false_iff_ne, ne_eq]
        exact fun he => hij he.symm
      simp [List.find?_singleton, hne]
    rw [h3, Option.or_none, lookupC]

theorem lookupC_updateConfs_not_mem (upd : ℕ → Box → Box × ℚ)
    (trackers : List (ℕ × Box)) :
    ∀ (confs : List (ℕ × ℚ)) (i : ℕ), i ∉ trackers.map Prod.fst →
      lookupC (updateConfs upd trackers confs) i = lookupC confs i := by
  induction trackers with
  | nil => intro confs i _; rfl
  | cons hd tl ih =>
      intro confs i hi
      simp only [List.map_cons, List.mem_cons, not_or] at hi
      have : updateConfs upd (hd :: tl) confs =
          updateConfs upd tl (updateC confs hd.1 (upd hd.1 hd.2).2) := rfl
      rw [this, ih _ i hi.2, lookupC_updateC_ne _ _ _ _ hi.1]

theorem lookupC_updateConfs (upd : ℕ → Box → Box × ℚ)
    (trackers : List (ℕ × Box)) :
    ∀ (confs : List (ℕ × ℚ)) (i : ℕ) (pos : Box),
      (trackers.map Prod.fst).Nodup → (i, pos) ∈ trackers →
      lookupC (updateConfs upd trackers confs) i = (upd i pos).2 := by
  induction trackers with
  | nil => intro confs i pos _ h; cases h
  | cons hd tl ih =>
      intro confs i pos hnd hmem
      have hstep : updateConfs upd (hd :: tl) confs =
          updateConfs upd tl (updateC confs hd.1 (upd hd.1 hd.2).2) := rfl
      simp only [List.map_cons, List.nodup_cons] at hnd
      rcases List.mem_cons.1 hmem with h | h
      · have hi : hd.1 = i := by rw [← h]
        have hp : hd.2 = pos := by rw [← h]
        rw [hstep, lookupC_updateConfs_not_mem upd tl _ i (by rw [← hi]; exact hnd.1),
          hi, hp, lookupC_updateC_self]
      · rw [hstep]
        exact ih _ i pos hnd.2 h

theorem freshIds_length (n : ℕ) : ∀ a, (freshIds a n).length = n := by
  induction n with
  | zero => intro a; rfl
  | succ n ih => intro a; simp [freshIds, ih]

theorem freshIds_mem (n : ℕ) : ∀ a i, i ∈ freshIds a n ↔ a < i ∧ i ≤ a + n := by
  induction n with
  | zero => intro a i; simp [freshIds]
  | succ n ih =>
      intro a i
      simp only [freshIds, List.mem_cons, ih]
      omega

theorem freshIds_pairwise (n : ℕ) : ∀ a, (freshIds a n).Pairwise (· < ·) := by
  induction n with
  | zero => intro a; simp [freshIds]
  | succ n ih =>
      intro a
      refine List.Pairwise.cons ?_ (ih (a + 1))
      intro i hi
      exact ((freshIds_mem n (a + 1) i).1 hi).1

theorem freshIds_nodup (n a : ℕ) : (freshIds a n).Nodup :=
  (freshIds_pairwise n a).imp Nat.ne_of_lt

theorem spawnRecsOf_map_id (T : ℚ) (bs : List Box) :
    ∀ a, (spawnRecsOf T a bs).map OutRec.identifier = freshIds a bs.length := by
  induction bs with
  | nil => intro a; rfl
  | cons b bs ih => intro a; simp [spawnRecsOf, freshIds, ih]

theorem spawnTrkOf_map_fst (upd : ℕ → Box → Box × ℚ) (bs : List Box) :
    ∀ a, (spawnTrkOf upd a bs).map Prod.fst = freshIds a bs.length := by
  induction bs with
  | nil => intro a; rfl
  | cons b bs ih => intro a; simp [spawnTrkOf, freshIds, ih]

theorem spawnRecsOf_conf (T : ℚ) (bs : List Box) :
    ∀ a, ∀ r ∈ spawnRecsOf T a bs, r.confidence = 0 ∧ r.T = T := by
  induction bs with
  | nil => intro a r h; cases h
  | cons b bs ih =>
      intro a r h
      rcases List.mem_cons.1 h with h1 | h1
      · subst h1; exact ⟨rfl, rfl⟩
      · exact ih (a + 1) r h1

theorem spawnStage_spec (T : ℚ) (upd : ℕ → Box → Box × ℚ)
    (slots : List (Option Box)) :
    ∀ s : SpawnSt,
      (spawnStage T upd slots s).identifier = s.identifier + countSome slots ∧
      (spawnStage T upd slots s).out =
        s.out ++ spawnRecsOf T s.identifier (slots.filterMap id) ∧
      (spawnStage T upd slots s).trackers =
        s.trackers ++ spawnTrkOf upd s.identifier (slots.filterMap id) ∧
      (∀ i, i ≤ s.identifier →
        lookupC (spawnStage T upd slots s).confs i = lookupC s.confs i) := by
  induction slots with
  | nil =>
      intro s
      refine ⟨rfl, by simp [spawnStage, spawnRecsOf], by simp [spawnStage, spawnTrkOf],
        fun i _ => rfl⟩
  | cons slot rest ih =>
      intro s
      cases slot with
      | none =>
          have hstep : spawnStage T upd (none :: rest) s = spawnStage T upd rest s := rfl
          obtain ⟨h1, h2, h3, h4⟩ := ih s
          rw [hstep]
          refine ⟨by rw [h1]; simp [countSome], by simpa using h2, by simpa using h3, h4⟩
      | some face =>
          have hstep : spawnStage T upd (some face :: rest) s =
              spawnStage T upd rest (spawnOne T upd s (some face)) := rfl
          obtain ⟨h1, h2, h3, h4⟩ := ih (spawnOne T upd s (some face))
          rw [hstep]
          refine ⟨?_, ?_, ?_, ?_⟩
          · rw [h1]
            simp [spawnOne, countSome]
            omega
          · rw [h2]
            simp [spawnOne, spawnRecsOf]
          · rw [h3]
            simp [spawnOne, spawnTrkOf]
          · intro i hi
            rw [h4 i (by simp [spawnOne]; omega)]
            exact lookupC_updateC_ne _ _ _ _ (by simp [spawnOne]; omega)

theorem processFrameParts_eq (solver : List (List ℚ) → List (ℕ × ℕ))
    (fd : FrameData) (st : TrackState) :
    processFrameParts solver fd st =
      (⟨(frameSpawn solver fd st).trackers, (frameSpawn solver fd st).confs,
        (frameSpawn solver fd st).identifier⟩,
       ((frameMatch solver fd st).out, (frameSpawn solver fd st).out,
        coastRecs fd.T (frameSpawn solver fd st).confs
          (frameMatch solver fd st).unmatched
          (frameSpawn solver fd st).trackers)) := rfl

theorem coastRecs_unmatched_nil (T : ℚ) (confs : List (ℕ × ℚ))
    (trackers : List (ℕ × Box)) : coastRecs T confs [] trackers = [] := by
  simp [coastRecs]

theorem coastRecs_map_id (T : ℚ) (confs : List (ℕ × ℚ)) (unmatched : List ℕ)
    (trackers : List (ℕ × Box)) :
    (coastRecs T confs unmatched trackers).map OutRec.identifier =
      (trackers.map Prod.fst).filter (fun i => decide (i ∈ unmatched)) := by
  induction trackers with
  | nil => rfl
  | cons hd tl ih =>
      by_cases h : hd.1 ∈ unmatched
      · have hc : coastRecs T confs unmatched (hd :: tl) =
            ⟨T, hd.1, hd.2, lookupC confs hd.1⟩ :: coastRecs T confs unmatched tl := by
          simp [coastRecs, List.filterMap_cons, h]
        rw [hc]
        simp only [List.map_cons, ih, List.filter_cons]
        rw [if_pos (by simpa using h)]
      · have hc : coastRecs T confs unmatched (hd :: tl) =
            coastRecs T confs unmatched tl := by
          simp [coastRecs, List.filterMap_cons, h]
        rw [hc, ih]
        simp only [List.map_cons, List.filter_cons]
        rw [if_neg (by simpa using h)]

theorem coastRecs_mem (T : ℚ) (confs : List (ℕ × ℚ)) (unmatched : List ℕ)
    (trackers : List (ℕ × Box)) (i : ℕ) (pos : Box)
    (hmem : (i, pos) ∈ trackers) (hu : i ∈ unmatched) :
    (⟨T, i, pos, lookupC confs i⟩ : OutRec) ∈ coastRecs T confs unmatched trackers :=
  List.mem_filterMap.2 ⟨(i, pos), hmem, by simp [hu]⟩

theorem filterMap_id_map_some (l : List Box) : (l.map some).filterMap id = l := by
  induction l with
  | nil => rfl
  | cons hd tl ih => simp [ih]

theorem countSome_map_some (l : List Box) : countSome (l.map some) = l.length := by
  rw [countSome, filterMap_id_map_some]

/-- Claim C7: on a frame whose shot value is truthy the tracker and
confidence dicts are cleared before anything else, so the frame is processed
exactly as if the live set were empty; no matched and no coasting record is
written, every detection of the frame spawns a fresh track, the spawn
records carry confidence `0.000` and the face's own box, and the live set
after the frame consists exactly of the freshly spawned identifiers. -/
theorem shotCutReset (solver : List (List ℚ) → List (ℕ × ℕ)) (fd : FrameData)
    (st : TrackState) (hshot : shotTruthy fd.shot = true) :
    (processFrame solver fd st = processFrame solver fd ⟨[], [], st.identifier⟩) ∧
    (processFrameParts solver fd st).2.1 = [] ∧
    (processFrameParts solver fd st).2.2.2 = [] ∧
    (processFrameParts solver fd st).2.2.1 =
      spawnRecsOf fd.T st.identifier fd.faces ∧
    (∀ r ∈ (processFrameParts solver fd st).2.2.1, r.confidence = 0) ∧
    (processFrameParts solver fd st).1.trackers.map Prod.fst =
      freshIds st.identifier fd.faces.length := by
  have h0 : clearedTrackers fd st = [] := by simp [clearedTrackers, hshot]
  have h0c : clearedConfs fd st = [] := by simp [clearedConfs, hshot]
  have hm : frameMatch solver fd st = ⟨[], [], fd.faces.map some, []⟩ := by
    simp only [frameMatch, h0, updateTrackers]
    simp
  obtain ⟨hs1, hs2, hs3, -⟩ := spawnStage_spec fd.T fd.upd (fd.faces.map some)
    ⟨st.identifier, [], frameConfs fd st, []⟩
  have hfs : frameSpawn solver fd st =
      spawnStage fd.T fd.upd (fd.faces.map some)
        ⟨st.identifier, [], frameConfs fd st, []⟩ := by
    rw [frameSpawn, hm]
  refine ⟨?_, ?_, ?_, ?_, ?_, ?_⟩
  · simp only [processFrame, processFrameParts, frameMatch, frameConfs,
      clearedTrackers, clearedConfs, hshot]
    simp
  · rw [processFrameParts_eq]
    simp only [hm]
  · rw [processFrameParts_eq]
    simp only [hfs, hm]
    rw [hs3]
    simp only [List.nil_append]
    exact coastRecs_unmatched_nil _ _ _
  · rw [processFrameParts_eq]
    simp only [hfs]
    rw [hs2, filterMap_id_map_some]
    simp
  · rw [processFrameParts_eq]
    simp only [hfs]
    rw [hs2, filterMap_id_map_some]
    intro r hr
    simp only [List.nil_append] at hr
    exact (spawnRecsOf_conf fd.T fd.faces st.identifier r hr).1
  · rw [processFrameParts_eq]
    simp only [hfs]
    rw [hs3, filterMap_id_map_some]
    simp only [List.nil_append]
    exact spawnTrkOf_map_fst fd.upd fd.faces st.identifier

/-- Witness for C7: a cut at `1.0` wipes one live track and the frame's one detection spawns identifier `4`. -/
theorem shotCutReset_witness :
    shotTruthy (some 1) = true ∧
    (processFrameParts (fun _ => []) ⟨some 1, 2, [⟨0, 0, 9, 9⟩], fun _ b => (b, 1)⟩
        ⟨[(3, ⟨5, 5, 8, 8⟩)], [(3, (1 : ℚ) / 2)], 3⟩).1.trackers.map Prod.fst =
      freshIds 3 1 :=
  ⟨by decide,
    (shotCutReset (fun _ => []) ⟨some 1, 2, [⟨0, 0, 9, 9⟩], fun _ b => (b, 1)⟩
      ⟨[(3, ⟨5, 5, 8, 8⟩)], [(3, (1 : ℚ) / 2)], 3⟩ (by decide)).2.2.2.2.2⟩

/-- Claim C10: when the post-clear live-track set or the detection list of a
frame is empty, the matching stage is skipped entirely — the result does not
depend on the assignment solver, no cost matrix is ever handed to it, no
matched record is written — and every detection spawns a new track (the
spawn records carry exactly the fresh identifiers, and the counter advances
by the number of detections) while every live track coasts (the coasting
records carry exactly the live identifiers, in order). -/
theorem matchingStageSkipped (solver solver' : List (List ℚ) → List (ℕ × ℕ))
    (fd : FrameData) (st : TrackState)
    (hempty : clearedTrackers fd st = [] ∨ fd.faces = []) :
    processFrame solver fd st = processFrame solver' fd st ∧
    (processFrameParts solver fd st).2.1 = [] ∧
    (processFrameParts solver fd st).2.2.1.map OutRec.identifier =
      freshIds st.identifier fd.faces.length ∧
    (processFrameParts solver fd st).1.identifier =
      st.identifier + fd.faces.length ∧
    (processFrameParts solver fd st).2.2.2.map OutRec.identifier =
      (clearedTrackers fd st).map Prod.fst := by
  have hmatch : ∀ sv : List (List ℚ) → List (ℕ × ℕ), frameMatch sv fd st =
      ⟨updateTrackers fd.upd (clearedTrackers fd st),
        (updateTrackers fd.upd (clearedTrackers fd st)).map Prod.fst,
        fd.faces.map some, []⟩ := by
    intro sv
    simp only [frameMatch]
    rw [if_neg]
    rcases hempty with h | h
    · simp [h, updateTrackers]
    · simp [h]
  obtain ⟨hs1, hs2, hs3, -⟩ := spawnStage_spec fd.T fd.upd (fd.faces.map some)
    ⟨st.identifier, updateTrackers fd.upd (clearedTrackers fd st), frameConfs fd st, []⟩
  have hfs : ∀ sv : List (List ℚ) → List (ℕ × ℕ), frameSpawn sv fd st =
      spawnStage fd.T fd.upd (fd.faces.map some)
        ⟨st.identifier, updateTrackers fd.upd (clearedTrackers fd st),
          frameConfs fd st, []⟩ := by
    intro sv
    rw [frameSpawn, hmatch]
  refine ⟨?_, ?_, ?_, ?_, ?_⟩
  · simp only [processFrame, processFrameParts_eq, hfs, hmatch]
  · rw [processFrameParts_eq]
    simp only [hmatch]
  · rw [processFrameParts_eq]
    simp only [hfs]
    rw [hs2, filterMap_id_map_some]
    simp only [List.nil_append]
    exact spawnRecsOf_map_id fd.T fd.faces st.identifier
  · rw [processFrameParts_eq]
    simp only [hfs]
    rw [hs1, countSome_map_some]
  · rw [processFrameParts_eq]
    simp only [hfs, hmatch]
    rw [coastRecs_map_id, hs3, filterMap_id_map_some, List.map_append,
      updateTrackers_fst, spawnTrkOf_map_fst, List.filter_append]
    rcases hempty with h | h
    · rw [h]
      simp
    · rw [h]
      simp only [List.length_nil]
      have hf0 : ∀ a, freshIds a 0 = [] := fun _ => rfl
      rw [hf0]
      simp only [List.filter_nil, List.append_nil]
      rw [List.filter_eq_self.2]
      intro a ha
      simpa using ha

/-- Witness for C10: with no detections the single live track coasts and nothing is matched. -/
theorem matchingStageSkipped_witness :
    (clearedTrackers ⟨none, 2, [], fun _ b => (b, 1)⟩
        ⟨[(3, ⟨5, 5, 8, 8⟩)], [(3, (1 : ℚ) / 2)], 3⟩ = [] ∨
      FrameData.faces ⟨none, 2, [], fun _ b => (b, 1)⟩ = []) ∧
    (processFrameParts (fun _ => [(0, 0)]) ⟨none, 2, [], fun _ b => (b, 1)⟩
        ⟨[(3, ⟨5, 5, 8, 8⟩)], [(3, (1 : ℚ) / 2)], 3⟩).2.2.2.map OutRec.identifier =
      (clearedTrackers ⟨none, 2, [], fun _ b => (b, 1)⟩
        ⟨[(3, ⟨5, 5, 8, 8⟩)], [(3, (1 : ℚ) / 2)], 3⟩).map Prod.fst :=
  ⟨Or.inr rfl,
    (matchingStageSkipped (fun _ => [(0, 0)]) (fun _ => [])
      ⟨none, 2, [], fun _ b => (b, 1)⟩
      ⟨[(3, ⟨5, 5, 8, 8⟩)], [(3, (1 : ℚ) / 2)], 3⟩ (Or.inr rfl)).2.2.2.2⟩

theorem frameSpawn_ids (solver : List (List ℚ) → List (ℕ × ℕ)) (fd : FrameData)
    (st : TrackState) :
    (processFrameParts solver fd st).2.2.1.map OutRec.identifier =
      freshIds st.identifier
        ((processFrameParts solver fd st).1.identifier - st.identifier) ∧
    st.identifier ≤ (processFrameParts solver fd st).1.identifier := by
  obtain ⟨h1, h2, -, -⟩ := spawnStage_spec fd.T fd.upd (frameMatch solver fd st).faces
    ⟨st.identifier, (frameMatch solver fd st).trackers, frameConfs fd st, []⟩
  rw [processFrameParts_eq]
  simp only [frameSpawn]
  constructor
  · rw [h2, h1]
    simp only [List.nil_append, Nat.add_sub_cancel_left]
    rw [spawnRecsOf_map_id]
    rfl
  · rw [h1]
    dsimp only
    omega

theorem runCounters_head (solver : List (List ℚ) → List (ℕ × ℕ))
    (st : TrackState) (fds : List FrameData) :
    (runCounters solver st fds).head? = some st.identifier := by
  cases fds <;> rfl

theorem runSpawnIds_spec (solver : List (List ℚ) → List (ℕ × ℕ))
    (fds : List FrameData) :
    ∀ st0 : TrackState,
      (runSpawnIds solver st0 fds).Pairwise (· < ·) ∧
      (∀ i ∈ runSpawnIds solver st0 fds,
        st0.identifier < i ∧ i ≤ (runTrack solver st0 fds).1.identifier) ∧
      st0.identifier ≤ (runTrack solver st0 fds).1.identifier ∧
      List.Chain' (· ≤ ·) (runCounters solver st0 fds) := by
  induction fds with
  | nil =>
      intro st0
      refine ⟨by simp [runSpawnIds], by simp [runSpawnIds], le_rfl, by simp [runCounters]⟩
  | cons fd rest ih =>
      intro st0
      obtain ⟨hfi, hfle⟩ := frameSpawn_ids solver fd st0
      obtain ⟨ih1, ih2, ih3, ih4⟩ := ih (processFrameParts solver fd st0).1
      have hrun : (runTrack solver st0 (fd :: rest)).1 =
          (runTrack solver (processFrameParts solver fd st0).1 rest).1 := rfl
      have hsp : runSpawnIds solver st0 (fd :: rest) =
          (processFrameParts solver fd st0).2.2.1.map OutRec.identifier ++
            runSpawnIds solver (processFrameParts solver fd st0).1 rest := rfl
      have hmemA : ∀ i ∈ (processFrameParts solver fd st0).2.2.1.map OutRec.identifier,
          st0.identifier < i ∧ i ≤ (processFrameParts solver fd st0).1.identifier := by
        intro i hi
        rw [hfi] at hi
        have := (freshIds_mem _ _ _).1 hi
        omega
      refine ⟨?_, ?_, ?_, ?_⟩
      · rw [hsp, List.pairwise_append]
        refine ⟨by rw [hfi]; exact freshIds_pairwise _ _, ih1, ?_⟩
        intro a ha b hb
        have h1 := hmemA a ha
        have h2 := (ih2 b hb).1
        omega
      · rw [hsp]
        intro i hi
        rw [hrun]
        rcases List.mem_append.1 hi with h | h
        · have := hmemA i h
          omega
        · have := ih2 i h
          omega
      · rw [hrun]
        omega
      · have hrc : runCounters solver st0 (fd :: rest) =
            st0.identifier :: runCounters solver (processFrame solver fd st0).1 rest := rfl
        rw [hrc, List.chain'_cons']
        refine ⟨?_, ih4⟩
        intro h hh
        rw [runCounters_head] at hh
        have : h = (processFrameParts solver fd st0).1.identifier := by
          injection hh.symm
        omega

/-- Claim C6: across an entire run the identifiers assigned at track
creation are strictly increasing in creation order (hence pairwise distinct
and never reused), each newly assigned identifier exceeds the initial
counter value, and the counter itself never decreases between frames — in
particular a shot-boundary clear does not reset it. -/
theorem identifierUniqueness (solver : List (List ℚ) → List (ℕ × ℕ))
    (st0 : TrackState) (fds : List FrameData) :
    (runSpawnIds solver st0 fds).Pairwise (· < ·) ∧
    (runSpawnIds solver st0 fds).Nodup ∧
    (∀ i ∈ runSpawnIds solver st0 fds,
      st0.identifier < i ∧ i ≤ (runTrack solver st0 fds).1.identifier) ∧
    List.Chain' (· ≤ ·) (runCounters solver st0 fds) := by
  obtain ⟨h1, h2, h3, h4⟩ := runSpawnIds_spec solver fds st0
  exact ⟨h1, h1.imp Nat.ne_of_lt, h2, h4⟩

theorem countSome_set_none (faces : List (Option Box)) :
    ∀ (f : ℕ) (b : Box), faces.get? f = some (some b) →
      countSome (faces.set f none) + 1 = countSome faces := by
  induction faces with
  | nil => intro f b h; cases h
  | cons hd tl ih =>
      intro f b h
      cases f with
      | zero =>
          injection h with h'
          subst h'
          simp [countSome, List.filterMap_cons]
      | succ f =>
          have h' : tl.get? f = some (some b) := h
          have hrec := ih f b h'
          have hset : (hd :: tl).set (f + 1) none = hd :: tl.set f none := rfl
          rw [hset]
          cases hd with
          | none =>
              simp only [countSome, List.filterMap_cons, id_eq] at hrec ⊢
              omega
          | some x =>
              simp only [countSome, List.filterMap_cons, id_eq, List.length_cons] at hrec ⊢
              omega

theorem matchStage_spec (T : ℚ) (confs : List (ℕ × ℚ)) (areas : List (List ℚ))
    (Nt Nf : ℕ) (keys0 : List ℕ) (hkeys : keys0.Nodup) :
    ∀ (mapping : List (ℕ × ℕ)) (s : MatchSt),
      (mapping.map Prod.fst).Nodup →
      (mapping.map Prod.snd).Nodup →
      s.trackers.map Prod.fst = keys0 →
      s.trackers.length = Nt →
      s.faces.length = Nf →
      s.unmatched.Nodup →
      (∀ p ∈ mapping, ∀ ip : ℕ × Box, s.trackers.get? p.1 = some ip →
        ip.1 ∈ s.unmatched) →
      (∀ p ∈ mapping, s.faces.get? p.2 ≠ some none) →
      ((matchStage T confs areas mapping Nt Nf s).trackers.map Prod.fst = keys0 ∧
       (matchStage T confs areas mapping Nt Nf s).trackers.length = Nt ∧
       (matchStage T confs areas mapping Nt Nf s).faces.length = Nf ∧
       (matchStage T confs areas mapping Nt Nf s).unmatched.Nodup ∧
       (∀ x ∈ (matchStage T confs areas mapping Nt Nf s).unmatched,
         x ∈ s.unmatched) ∧
       ((matchStage T confs areas mapping Nt Nf s).out.map OutRec.identifier ++
          (matchStage T confs areas mapping Nt Nf s).unmatched).Perm
         (s.out.map OutRec.identifier ++ s.unmatched) ∧
       countSome (matchStage T confs areas mapping Nt Nf s).faces +
          (matchStage T confs areas mapping Nt Nf s).out.length =
         countSome s.faces + s.out.length ∧
       (∀ (idx : ℕ) (ip : ℕ × Box), s.trackers.get? idx = some ip →
         ip.1 ∈ (matchStage T confs areas mapping Nt Nf s).unmatched →
         (matchStage T confs areas mapping Nt Nf s).trackers.get? idx = some ip)) := by
  intro mapping
  induction mapping with
  | nil =>
      intro s _ _ hA hlen hB hC _ _
      exact ⟨hA, hlen, hB, hC, fun x hx => hx, List.Perm.refl _, rfl, fun idx ip h _ => h⟩
  | cons p rest ih =>
      intro s hndT hndF hA hlen hB hC hF hG
      simp only [List.map_cons, List.nodup_cons] at hndT hndF
      have hstep : matchStage T confs areas (p :: rest) Nt Nf s =
          matchStage T confs areas rest Nt Nf (applyPair T confs Nt Nf areas s p) := rfl
      rw [hstep]
      by_cases hguard : Nt ≤ p.1 ∨ Nf ≤ p.2
      · have hid : applyPair T confs Nt Nf areas s p = s := by
          rw [applyPair, if_pos hguard]
        rw [hid]
        exact ih s hndT.2 hndF.2 hA hlen hB hC
          (fun q hq => hF q (List.mem_cons_of_mem _ hq))
          (fun q hq => hG q (List.mem_cons_of_mem _ hq))
      · push_neg at hguard
        obtain ⟨ht, hf⟩ := hguard
        obtain ⟨ip, hip⟩ : ∃ ip, s.trackers.get? p.1 = some ip := by
          rw [List.get?_eq_get (by omega)]
          exact ⟨_, rfl⟩
        obtain ⟨slot, hslot⟩ : ∃ slot, s.faces.get? p.2 = some slot := by
          rw [List.get?_eq_get (by omega)]
          exact ⟨_, rfl⟩
        obtain ⟨face, hface⟩ : ∃ face, slot = some face := by
          cases slot with
          | none => exact absurd (hslot) (hG p (List.mem_cons_self _ _))
          | some face => exact ⟨face, rfl⟩
        subst hface
        have hred : applyPair T confs Nt Nf areas s p =
            if 2 * entryAt areas p.1 p.2 > face.area ∨
                2 * entryAt areas p.1 p.2 > ip.2.area then
              { trackers := s.trackers.set p.1 (ip.1, face)
                unmatched := s.unmatched.erase ip.1
                faces := s.faces.set p.2 none
                out := s.out ++ [⟨T, ip.1, face, lookupC confs ip.1⟩] } else s := by
          rw [applyPair, if_neg (by omega), hslot, hip]
        by_cases hcond : 2 * entryAt areas p.1 p.2 > face.area ∨
            2 * entryAt areas p.1 p.2 > ip.2.area
        · rw [hred, if_pos hcond]
          have hkey : keys0.get? p.1 = some ip.1 := by
            rw [← hA, List.get?_map, hip]
            rfl
          have hmemu : ip.1 ∈ s.unmatched := hF p (List.mem_cons_self _ _) ip hip
          set s1 : MatchSt :=
            { trackers := s.trackers.set p.1 (ip.1, face)
              unmatched := s.unmatched.erase ip.1
              faces := s.faces.set p.2 none
              out := s.out ++ [⟨T, ip.1, face, lookupC confs ip.1⟩] } with hs1
          have hA1 : s1.trackers.map Prod.fst = keys0 := by
            rw [hs1]
            show (s.trackers.set p.1 (ip.1, face)).map Prod.fst = keys0
            rw [List.map_set, hA]
            apply set_getElem?_self
            rw [← List.get?_eq_getElem?]
            exact hkey
          have hlen1 : s1.trackers.length = Nt := by
            rw [hs1]
            show (s.trackers.set p.1 (ip.1, face)).length = Nt
            rw [List.length_set]
            exact hlen
          have hB1 : s1.faces.length = Nf := by
            rw [hs1]
            show (s.faces.set p.2 none).length = Nf
            rw [List.length_set]
            exact hB
          have hC1 : s1.unmatched.Nodup := hC.erase _
          have hgetne : ∀ q : ℕ × ℕ, q.1 ≠ p.1 →
              s1.trackers.get? q.1 = s.trackers.get? q.1 := by
            intro q hq
            rw [hs1]
            show (s.trackers.set p.1 (ip.1, face)).get? q.1 = s.trackers.get? q.1
            rw [List.get?_eq_getElem?, List.get?_eq_getElem?]
            exact List.getElem?_set_ne (fun he => hq he.symm)
          have hkeyne : ∀ (q1 : ℕ) (ip' : ℕ × Box), q1 ≠ p.1 →
              s.trackers.get? q1 = some ip' → ip'.1 ≠ ip.1 := by
            intro q1 ip' hq hip' he
            have hk' : keys0.get? q1 = some ip'.1 := by
              rw [← hA, List.get?_map, hip']
              rfl
            have hlt : q1 < keys0.length := (List.get?_eq_some.1 hk').1
            refine hq (List.get?_inj hlt hkeys ?_)
            rw [hk', hkey, he]
          have hF1 : ∀ q ∈ rest, ∀ ip' : ℕ × Box, s1.trackers.get? q.1 = some ip' →
              ip'.1 ∈ s1.unmatched := by
            intro q hq ip' hip'
            have hqne : q.1 ≠ p.1 := by
              intro he
              exact hndT.1 (he ▸ List.mem_map_of_mem Prod.fst hq)
            rw [hgetne q hqne] at hip'
            have hm := hF q (List.mem_cons_of_mem _ hq) ip' hip'
            rw [hs1]
            show ip'.1 ∈ s.unmatched.erase ip.1
            exact (List.mem_erase_of_ne (hkeyne q.1 ip' hqne hip')).2 hm
          have hG1 : ∀ q ∈ rest, s1.faces.get? q.2 ≠ some none := by
            intro q hq
            have hqne : q.2 ≠ p.2 := by
              intro he
              exact hndF.1 (he ▸ List.mem_map_of_mem Prod.snd hq)
            rw [hs1]
            show (s.faces.set p.2 none).get? q.2 ≠ some none
            rw [List.get?_eq_getElem?, List.getElem?_set_ne (fun he => hqne he.symm),
              ← List.get?_eq_getElem?]
            exact hG q (List.mem_cons_of_mem _ hq)
          obtain ⟨k1, k2, k3, k4, k5, k6, k7, k8⟩ :=
            ih s1 hndT.2 hndF.2 hA1 hlen1 hB1 hC1 hF1 hG1
          refine ⟨k1, k2, k3, k4, ?_, ?_, ?_, ?_⟩
          · intro x hx
            exact List.mem_of_mem_erase (k5 x hx)
          · refine k6.trans ?_
            rw [hs1]
            show ((s.out ++ [(⟨T, ip.1, face, lookupC confs ip.1⟩ : OutRec)]).map
                OutRec.identifier ++
              s.unmatched.erase ip.1).Perm (s.out.map OutRec.identifier ++ s.unmatched)
            rw [List.map_append, List.append_assoc]
            exact List.Perm.append_left (s.out.map OutRec.identifier)
              (List.perm_cons_erase hmemu).symm
          · have hcs : countSome (s.faces.set p.2 none) + 1 = countSome s.faces :=
              countSome_set_none s.faces p.2 face hslot
            have houtlen : s1.out.length = s.out.length + 1 := by
              rw [hs1]
              show (s.out ++ [(⟨T, ip.1, face, lookupC confs ip.1⟩ : OutRec)]).length =
                s.out.length + 1
              simp
            have hfs1 : countSome s1.faces = countSome (s.faces.set p.2 none) := rfl
            rw [k7, hfs1, houtlen]
            omega
          · intro idx ip' hidx hmem
            have hne : ip'.1 ≠ ip.1 := by
              intro he
              have : ip'.1 ∈ s1.unmatched := k5 ip'.1 hmem
              rw [hs1] at this
              rw [he] at this
              exact hC.not_mem_erase this
            have hidxne : idx ≠ p.1 := by
              intro he
              rw [he, hip] at hidx
              injection hidx with h'
              exact hne (by rw [← h'])
            refine k8 idx ip' ?_ hmem
            rw [hgetne (idx, 0) hidxne]
            exact hidx
        · rw [hred, if_neg hcond]
          exact ih s hndT.2 hndF.2 hA hlen hB hC
            (fun q hq => hF q (List.mem_cons_of_mem _ hq))
            (fun q hq => hG q (List.mem_cons_of_mem _ hq))

theorem frameMatch_spec (solver : List (List ℚ) → List (ℕ × ℕ)) (fd : FrameData)
    (st : TrackState)
    (hkeys : ((clearedTrackers fd st).map Prod.fst).Nodup)
    (hsolver : ∀ m : List (List ℚ),
      ((solver m).map Prod.fst).Nodup ∧ ((solver m).map Prod.snd).Nodup) :
    (frameMatch solver fd st).trackers.map Prod.fst =
      (clearedTrackers fd st).map Prod.fst ∧
    (frameMatch solver fd st).faces.length = fd.faces.length ∧
    (frameMatch solver fd st).unmatched.Nodup ∧
    (∀ x ∈ (frameMatch solver fd st).unmatched,
      x ∈ (clearedTrackers fd st).map Prod.fst) ∧
    ((frameMatch solver fd st).out.map OutRec.identifier ++
      (frameMatch solver fd st).unmatched).Perm
      ((clearedTrackers fd st).map Prod.fst) ∧
    countSome (frameMatch solver fd st).faces +
      (frameMatch solver fd st).out.length = fd.faces.length ∧
    (∀ (idx : ℕ) (ip : ℕ × Box),
      (updateTrackers fd.upd (clearedTrackers fd st)).get? idx = some ip →
      ip.1 ∈ (frameMatch solver fd st).unmatched →
      (frameMatch solver fd st).trackers.get? idx = some ip) := by
  have hkeys1 : (updateTrackers fd.upd (clearedTrackers fd st)).map Prod.fst =
      (clearedTrackers fd st).map Prod.fst := updateTrackers_fst _ _
  by_cases hcond : (updateTrackers fd.upd (clearedTrackers fd st)).length ≠ 0 ∧
      fd.faces.length ≠ 0
  · have hm : frameMatch solver fd st =
        matchStage fd.T (frameConfs fd st)
          (mkAreas ((updateTrackers fd.upd (clearedTrackers fd st)).map Prod.snd)
            fd.faces)
          (solver (mkCost (mkAreas
            ((updateTrackers fd.upd (clearedTrackers fd st)).map Prod.snd) fd.faces)))
          (updateTrackers fd.upd (clearedTrackers fd st)).length fd.faces.length
          ⟨updateTrackers fd.upd (clearedTrackers fd st),
            (updateTrackers fd.upd (clearedTrackers fd st)).map Prod.fst,
            fd.faces.map some, []⟩ := by
      simp only [frameMatch]
      rw [if_pos hcond]
    obtain ⟨k1, k2, k3, k4, k5, k6, k7, k8⟩ :=
      matchStage_spec fd.T (frameConfs fd st)
        (mkAreas ((updateTrackers fd.upd (clearedTrackers fd st)).map Prod.snd) fd.faces)
        (updateTrackers fd.upd (clearedTrackers fd st)).length fd.faces.length
        ((clearedTrackers fd st).map Prod.fst) hkeys
        (solver (mkCost (mkAreas
          ((updateTrackers fd.upd (clearedTrackers fd st)).map Prod.snd) fd.faces)))
        ⟨updateTrackers fd.upd (clearedTrackers fd st),
          (updateTrackers fd.upd (clearedTrackers fd st)).map Prod.fst,
          fd.faces.map some, []⟩
        (hsolver _).1 (hsolver _).2 hkeys1 rfl (by simp)
        (by rw [hkeys1]; exact hkeys)
        (by intro p _ ip hip
            show ip.1 ∈ (updateTrackers fd.upd (clearedTrackers fd st)).map Prod.fst
            exact List.mem_map_of_mem Prod.fst (List.get?_mem hip))
        (by intro p _
            show (fd.faces.map some).get? p.2 ≠ some none
            rw [List.get?_eq_getElem?, List.getElem?_map]
            cases fd.faces[p.2]? <;> simp)
    rw [hm]
    refine ⟨k1, k3, k4, ?_, ?_, ?_, k8⟩
    · intro x hx
      have := k5 x hx
      rwa [hkeys1] at this
    · have h6 := k6
      dsimp only at h6
      simp only [List.map_nil, List.nil_append] at h6
      have hkp : (List.map Prod.fst (updateTrackers fd.upd (clearedTrackers fd st))).Perm
          (List.map Prod.fst (clearedTrackers fd st)) := by
        rw [hkeys1]
      exact h6.trans hkp
    · have := k7
      dsimp only at this
      simp only [List.map_nil, List.length_nil, Nat.add_zero] at this
      rw [this, countSome_map_some]
  · have hm : frameMatch solver fd st =
        ⟨updateTrackers fd.upd (clearedTrackers fd st),
          (updateTrackers fd.upd (clearedTrackers fd st)).map Prod.fst,
          fd.faces.map some, []⟩ := by
      simp only [frameMatch]
      rw [if_neg hcond]
    rw [hm]
    refine ⟨hkeys1, by simp, by rw [hkeys1]; exact hkeys, ?_, ?_, ?_, ?_⟩
    · intro x hx
      rwa [hkeys1] at hx
    · simp only [List.map_nil, List.nil_append]
      rw [hkeys1]
    · simp only [List.length_nil, Nat.add_zero]
      exact countSome_map_some fd.faces
    · intro idx ip h _
      exact h

/-- Claim C5: on every processed frame with `k` tracks alive after the
shot-cut check and `m` tracks freshly spawned, exactly `k + m` output
records are written, and their identifiers are precisely the surviving
identifiers together with the newly spawned ones, each exactly once —
every track is reported by exactly one of the matched, spawn or coasting
branches.  Hypotheses: the live identifiers are pairwise distinct and at
most the counter (run invariants), and the solver returns one-to-one
pairings (the `munkres` contract). -/
theorem outputCompleteness (solver : List (List ℚ) → List (ℕ × ℕ)) (fd : FrameData)
    (st : TrackState)
    (hkeys : (st.trackers.map Prod.fst).Nodup)
    (hfresh : ∀ k ∈ st.trackers.map Prod.fst, k ≤ st.identifier)
    (hsolver : ∀ m : List (List ℚ),
      ((solver m).map Prod.fst).Nodup ∧ ((solver m).map Prod.snd).Nodup) :
    (processFrame solver fd st).2.length =
      (clearedTrackers fd st).length +
        ((processFrameParts solver fd st).1.identifier - st.identifier) ∧
    ((processFrame solver fd st).2.map OutRec.identifier).Perm
      ((clearedTrackers fd st).map Prod.fst ++
        freshIds st.identifier
          ((processFrameParts solver fd st).1.identifier - st.identifier)) ∧
    ((processFrame solver fd st).2.map OutRec.identifier).Nodup := by
  have hckeys : ((clearedTrackers fd st).map Prod.fst).Nodup := by
    by_cases h : shotTruthy fd.shot <;> simp [clearedTrackers, h, hkeys]
  have hcfresh : ∀ k ∈ (clearedTrackers fd st).map Prod.fst, k ≤ st.identifier := by
    by_cases h : shotTruthy fd.shot <;> simp only [clearedTrackers, h, if_true, if_false]
    · intro k hk
      simp at hk
    · exact hfresh
  obtain ⟨m1, m2, m3, m4, m5, m6, m7⟩ := frameMatch_spec solver fd st hckeys hsolver
  obtain ⟨sp1, sp2, sp3, sp4⟩ := spawnStage_spec fd.T fd.upd
    (frameMatch solver fd st).faces
    ⟨st.identifier, (frameMatch solver fd st).trackers, frameConfs fd st, []⟩
  dsimp only at sp1 sp2 sp3
  simp only [List.nil_append] at sp2 sp3
  have hfsid : (frameSpawn solver fd st).identifier =
      st.identifier + countSome (frameMatch solver fd st).faces := sp1
  have hfsout : (frameSpawn solver fd st).out =
      spawnRecsOf fd.T st.identifier ((frameMatch solver fd st).faces.filterMap id) := sp2
  have hfstrk : (frameSpawn solver fd st).trackers =
      (frameMatch solver fd st).trackers ++
        spawnTrkOf fd.upd st.identifier ((frameMatch solver fd st).faces.filterMap id) := sp3
  have hm : (processFrameParts solver fd st).1.identifier - st.identifier =
      countSome (frameMatch solver fd st).faces := by
    rw [processFrameParts_eq]
    dsimp only
    rw [hfsid]
    omega
  have hfslen : ((frameMatch solver fd st).faces.filterMap id).length =
      countSome (frameMatch solver fd st).faces := rfl
  have hout : (processFrame solver fd st).2 =
      (frameMatch solver fd st).out ++ (frameSpawn solver fd st).out ++
        coastRecs fd.T (frameSpawn solver fd st).confs
          (frameMatch solver fd st).unmatched (frameSpawn solver fd st).trackers := rfl
  have hcoastids : (coastRecs fd.T (frameSpawn solver fd st).confs
      (frameMatch solver fd st).unmatched (frameSpawn solver fd st).trackers).map
        OutRec.identifier =
      (((clearedTrackers fd st).map Prod.fst).filter
        (fun i => decide (i ∈ (frameMatch solver fd st).unmatched))) := by
    rw [coastRecs_map_id, hfstrk, List.map_append, m1, spawnTrkOf_map_fst,
      List.filter_append, hfslen]
    have hnil : (freshIds st.identifier (countSome (frameMatch solver fd st).faces)).filter
        (fun i => decide (i ∈ (frameMatch solver fd st).unmatched)) = [] := by
      rw [List.filter_eq_nil_iff]
      intro a ha
      simp only [decide_eq_true_eq]
      intro hmem
      have h1 := (freshIds_mem _ _ _).1 ha
      have h2 := hcfresh a (m4 a hmem)
      omega
    rw [hnil, List.append_nil]
  have hcoastperm : ((((clearedTrackers fd st).map Prod.fst).filter
      (fun i => decide (i ∈ (frameMatch solver fd st).unmatched)))).Perm
      (frameMatch solver fd st).unmatched := by
    apply List.perm_of_nodup_nodup_toFinset_eq (hckeys.filter _) m3
    ext x
    simp only [List.mem_toFinset, List.mem_filter, decide_eq_true_eq]
    constructor
    · intro hx
      exact hx.2
    · intro hx
      exact ⟨m4 x hx, hx⟩
  have hperm : ((processFrame solver fd st).2.map OutRec.identifier).Perm
      ((clearedTrackers fd st).map Prod.fst ++
        freshIds st.identifier
          ((processFrameParts solver fd st).1.identifier - st.identifier)) := by
    rw [hout, List.map_append, List.map_append, hcoastids, hfsout,
      spawnRecsOf_map_id, hfslen, hm]
    have step1 : ((frameMatch solver fd st).out.map OutRec.identifier ++
        freshIds st.identifier (countSome (frameMatch solver fd st).faces) ++
        (((clearedTrackers fd st).map Prod.fst).filter
          (fun i => decide (i ∈ (frameMatch solver fd st).unmatched)))).Perm
        ((frameMatch solver fd st).out.map OutRec.identifier ++
          freshIds st.identifier (countSome (frameMatch solver fd st).faces) ++
          (frameMatch solver fd st).unmatched) :=
      List.Perm.append_left _ hcoastperm
    refine step1.trans ?_
    rw [List.append_assoc]
    refine List.Perm.trans (List.Perm.append_left _ List.perm_append_comm) ?_
    rw [← List.append_assoc]
    exact List.Perm.append_right _ m5
  refine ⟨?_, hperm, ?_⟩
  · have hlen := hperm.length_eq
    rw [List.length_map, List.length_append, List.length_map, freshIds_length] at hlen
    exact hlen
  · have hnd : ((clearedTrackers fd st).map Prod.fst ++
        freshIds st.identifier
          ((processFrameParts solver fd st).1.identifier - st.identifier)).Nodup := by
      rw [List.nodup_append]
      refine ⟨hckeys, freshIds_nodup _ _, ?_⟩
      intro a ha hb
      have h1 := hcfresh a ha
      have h2 := (freshIds_mem _ _ _).1 hb
      omega
    exact (hperm.nodup_iff).2 hnd

/-- Claim C8: on a frame with no shot cut no track is removed: every
identifier live at the start of the frame is still live (a prefix of the
final dict, in order) at the end; and a live track matched by no detection
coasts — the frame writes a coasting record with the track's own predicted
position and its freshly updated confidence, and the track's stored position
stays the predicted one, i.e. its tracker is not re-seeded. -/
theorem tracksOnlyRemovedAtShotBoundary (solver : List (List ℚ) → List (ℕ × ℕ))
    (fd : FrameData) (st : TrackState)
    (hshot : shotTruthy fd.shot = false)
    (hkeys : (st.trackers.map Prod.fst).Nodup)
    (hfresh : ∀ k ∈ st.trackers.map Prod.fst, k ≤ st.identifier)
    (hsolver : ∀ m : List (List ℚ),
      ((solver m).map Prod.fst).Nodup ∧ ((solver m).map Prod.snd).Nodup) :
    (((processFrame solver fd st).1.trackers.map Prod.fst).take
        st.trackers.length = st.trackers.map Prod.fst) ∧
    (∀ (i : ℕ) (pos0 : Box), (i, pos0) ∈ st.trackers →
      i ∈ (frameMatch solver fd st).unmatched →
      ((⟨fd.T, i, (fd.upd i pos0).1, (fd.upd i pos0).2⟩ : OutRec) ∈
          (processFrameParts solver fd st).2.2.2 ∧
        (i, (fd.upd i pos0).1) ∈ (processFrame solver fd st).1.trackers)) := by
  have hcl : clearedTrackers fd st = st.trackers := by
    simp [clearedTrackers, hshot]
  have hclc : clearedConfs fd st = st.confidences := by
    simp [clearedConfs, hshot]
  have hckeys : ((clearedTrackers fd st).map Prod.fst).Nodup := by
    rw [hcl]; exact hkeys
  obtain ⟨m1, m2, m3, m4, m5, m6, m7⟩ := frameMatch_spec solver fd st hckeys hsolver
  obtain ⟨sp1, sp2, sp3, sp4⟩ := spawnStage_spec fd.T fd.upd
    (frameMatch solver fd st).faces
    ⟨st.identifier, (frameMatch solver fd st).trackers, frameConfs fd st, []⟩
  dsimp only at sp1 sp2 sp3 sp4
  simp only [List.nil_append] at sp2 sp3
  have htrkfinal : (processFrame solver fd st).1.trackers =
      (frameMatch solver fd st).trackers ++
        spawnTrkOf fd.upd st.identifier ((frameMatch solver fd st).faces.filterMap id) := by
    rw [processFrame, processFrameParts_eq]
    dsimp only
    rw [frameSpawn]
    exact sp3
  constructor
  · rw [htrkfinal, List.map_append, m1, hcl]
    have : st.trackers.length = (st.trackers.map Prod.fst).length := by
      rw [List.length_map]
    rw [this]
    exact List.take_left _ _
  · intro i pos0 hmem hunm
    obtain ⟨idx, hidx⟩ := List.get?_of_mem hmem
    have hidx1 : (updateTrackers fd.upd (clearedTrackers fd st)).get? idx =
        some (i, (fd.upd i pos0).1) := by
      rw [hcl, updateTrackers, List.get?_eq_getElem?, List.getElem?_map,
        ← List.get?_eq_getElem?, hidx]
      rfl
    have hS1 : (frameMatch solver fd st).trackers.get? idx =
        some (i, (fd.upd i pos0).1) := m7 idx _ hidx1 hunm
    have hmemS1 : (i, (fd.upd i pos0).1) ∈ (frameMatch solver fd st).trackers :=
      List.get?_mem hS1
    have hmemSP : (i, (fd.upd i pos0).1) ∈ (processFrame solver fd st).1.trackers := by
      rw [htrkfinal]
      exact List.mem_append_left _ hmemS1
    have hile : i ≤ st.identifier :=
      hfresh i (List.mem_map_of_mem Prod.fst hmem)
    have hconf : lookupC (frameSpawn solver fd st).confs i = (fd.upd i pos0).2 := by
      have h1 : lookupC (frameSpawn solver fd st).confs i =
          lookupC (frameConfs fd st) i := by
        rw [frameSpawn]
        exact sp4 i hile
      rw [h1, frameConfs, hcl, hclc]
      exact lookupC_updateConfs fd.upd st.trackers st.confidences i pos0 hkeys hmem
    refine ⟨?_, hmemSP⟩
    rw [processFrameParts_eq]
    dsimp only
    have hrec : (⟨fd.T, i, (fd.upd i pos0).1, (fd.upd i pos0).2⟩ : OutRec) =
        ⟨fd.T, i, (fd.upd i pos0).1, lookupC (frameSpawn solver fd st).confs i⟩ := by
      rw [hconf]
    rw [hrec]
    apply coastRecs_mem
    · have : (frameSpawn solver fd st).trackers = (processFrame solver fd st).1.trackers := by
        rw [processFrame, processFrameParts_eq]
      rw [this]
      exact hmemSP
    · exact hunm

/-- Witness for C5: one live track and one detection give `1 + m` records on the frame. -/
theorem outputCompleteness_witness :
    ((List.map Prod.fst (TrackState.trackers ⟨[(1, ⟨0, 0, 9, 9⟩)], [(1, (1 : ℚ) / 2)], 1⟩)).Nodup ∧
      (∀ k ∈ List.map Prod.fst
          (TrackState.trackers ⟨[(1, ⟨0, 0, 9, 9⟩)], [(1, (1 : ℚ) / 2)], 1⟩), k ≤ 1)) ∧
    (processFrame (fun _ => [(0, 0)]) ⟨none, 2, [⟨0, 0, 9, 9⟩], fun _ b => (b, 1)⟩
        ⟨[(1, ⟨0, 0, 9, 9⟩)], [(1, (1 : ℚ) / 2)], 1⟩).2.length =
      (clearedTrackers ⟨none, 2, [⟨0, 0, 9, 9⟩], fun _ b => (b, 1)⟩
          ⟨[(1, ⟨0, 0, 9, 9⟩)], [(1, (1 : ℚ) / 2)], 1⟩).length +
        ((processFrameParts (fun _ => [(0, 0)]) ⟨none, 2, [⟨0, 0, 9, 9⟩], fun _ b => (b, 1)⟩
            ⟨[(1, ⟨0, 0, 9, 9⟩)], [(1, (1 : ℚ) / 2)], 1⟩).1.identifier - 1) :=
  ⟨⟨by decide, by decide⟩,
    (outputCompleteness (fun _ => [(0, 0)]) ⟨none, 2, [⟨0, 0, 9, 9⟩], fun _ b => (b, 1)⟩
      ⟨[(1, ⟨0, 0, 9, 9⟩)], [(1, (1 : ℚ) / 2)], 1⟩ (by decide) (by decide)
      (by intro m; constructor <;> simp)).1⟩

/-- Witness for C8: with no detections the live track's coasting record and surviving entry are present. -/
theorem tracksOnlyRemovedAtShotBoundary_witness :
    shotTruthy none = false ∧
    ((⟨2, 1, ⟨0, 0, 9, 9⟩, 1⟩ : OutRec) ∈
        (processFrameParts (fun _ => []) ⟨none, 2, [], fun _ b => (b, 1)⟩
          ⟨[(1, ⟨0, 0, 9, 9⟩)], [(1, (1 : ℚ) / 2)], 1⟩).2.2.2 ∧
      (1, ⟨0, 0, 9, 9⟩) ∈
        (processFrame (fun _ => []) ⟨none, 2, [], fun _ b => (b, 1)⟩
          ⟨[(1, ⟨0, 0, 9, 9⟩)], [(1, (1 : ℚ) / 2)], 1⟩).1.trackers) :=
  ⟨by decide,
    (tracksOnlyRemovedAtShotBoundary (fun _ => []) ⟨none, 2, [], fun _ b => (b, 1)⟩
      ⟨[(1, ⟨0, 0, 9, 9⟩)], [(1, (1 : ℚ) / 2)], 1⟩ (by decide) (by decide) (by decide)
      (by intro m; constructor <;> simp)).2 1 ⟨0, 0, 9, 9⟩ (by decide) (by decide)⟩
